import Mathlib

/-!
Verification of the openclaw-wecom callback-protocol engine against its
natural-language specification.  The definitions below are shallow
embeddings of the TypeScript sources under src/wecom/src: pure functions
become Lean functions, the mutable registries become explicit state records,
and the event-loop behaviour is modelled as explicit step functions over
traces.  Machine integers are Nat; JS Date.now values are Nat milliseconds.
-/

namespace Wecom

/-! ## UTF-8 byte model

Node Buffer.from(text, "utf8") encodes a JS string to UTF-8 bytes and
Buffer.toString("utf8") decodes bytes back, replacing ill-formed sequences
with U+FFFD following the WHATWG decoding algorithm (one replacement per
maximal invalid subpart; a stray continuation byte yields one replacement).
Bytes are modelled as Nat values below 256.  Division and remainder by
powers of two model the bit operations of the encoder. -/

/-- UTF-8 encoding of a scalar value below 0x110000. -/
def utf8EncodeNat (n : Nat) : List Nat :=
  if n < 0x80 then [n]
  else if n < 0x800 then [0xC0 + n / 64, 0x80 + n % 64]
  else if n < 0x10000 then [0xE0 + n / 4096, 0x80 + (n / 64) % 64, 0x80 + n % 64]
  else [0xF0 + n / 262144, 0x80 + (n / 4096) % 64, 0x80 + (n / 64) % 64, 0x80 + n % 64]

/-- UTF-8 encoding of a single character. -/
def utf8EncodeChar (c : Char) : List Nat :=
  utf8EncodeNat c.toNat

/-- UTF-8 encoding of a character list. -/
def utf8Encode (l : List Char) : List Nat :=
  l.foldr (fun c acc => utf8EncodeChar c ++ acc) []

/-- Number of UTF-8 bytes of a string, i.e. Buffer.byteLength(s, "utf8"). -/
def utf8ByteLength (s : String) : Nat :=
  (utf8Encode s.data).length

/-- The U+FFFD replacement character emitted for ill-formed input. -/
def replChar : Char := Char.ofNat 0xFFFD

/-- Whether a byte is a UTF-8 continuation byte (0x80..0xBF). -/
def isCont (b : Nat) : Bool := 0x80 ≤ b && b < 0xC0

/-- Admissible second byte after a three-byte lead, per the WHATWG decoder. -/
def cont3Ok (lead b1 : Nat) : Bool :=
  if lead = 0xE0 then 0xA0 ≤ b1 && b1 < 0xC0
  else if lead = 0xED then 0x80 ≤ b1 && b1 < 0xA0
  else isCont b1

/-- Admissible second byte after a four-byte lead, per the WHATWG decoder. -/
def cont4Ok (lead b1 : Nat) : Bool :=
  if lead = 0xF0 then 0x90 ≤ b1 && b1 < 0xC0
  else if lead = 0xF4 then 0x80 ≤ b1 && b1 < 0x90
  else isCont b1

/-- One step of the WHATWG UTF-8 decoder: given the first byte and the bytes
after it, produce the decoded character (U+FFFD on an ill-formed subpart) and
the bytes remaining after the consumed subpart. -/
def utf8DecodeStep (b : Nat) (bs : List Nat) : Char × List Nat :=
  if b < 0x80 then (Char.ofNat b, bs)
  else if b < 0xC2 then (replChar, bs)
  else if b < 0xE0 then
    match bs with
    | [] => (replChar, [])
    | b1 :: bs1 =>
      if isCont b1 then (Char.ofNat ((b - 0xC0) * 64 + (b1 - 0x80)), bs1)
      else (replChar, b1 :: bs1)
  else if b < 0xF0 then
    match bs with
    | [] => (replChar, [])
    | [b1] => if cont3Ok b b1 then (replChar, []) else (replChar, [b1])
    | b1 :: b2 :: bs2 =>
      if cont3Ok b b1 then
        if isCont b2 then
          (Char.ofNat ((b - 0xE0) * 4096 + (b1 - 0x80) * 64 + (b2 - 0x80)), bs2)
        else (replChar, b2 :: bs2)
      else (replChar, b1 :: b2 :: bs2)
  else if b < 0xF5 then
    match bs with
    | [] => (replChar, [])
    | [b1] => if cont4Ok b b1 then (replChar, []) else (replChar, [b1])
    | [b1, b2] =>
      if cont4Ok b b1 then
        if isCont b2 then (replChar, []) else (replChar, [b2])
      else (replChar, [b1, b2])
    | b1 :: b2 :: b3 :: bs3 =>
      if cont4Ok b b1 then
        if isCont b2 then
          if isCont b3 then
            (Char.ofNat ((b - 0xF0) * 262144 + (b1 - 0x80) * 4096 + (b2 - 0x80) * 64 + (b3 - 0x80)),
              bs3)
          else (replChar, b3 :: bs3)
        else (replChar, b2 :: b3 :: bs3)
      else (replChar, b1 :: b2 :: b3 :: bs3)
  else (replChar, bs)

/-- Fuel-indexed driver for the decoder; the fuel only needs to be at least
the length of the byte list because every step consumes at least one byte. -/
def utf8DecodeAux : Nat → List Nat → List Char
  | _, [] => []
  | 0, _ :: _ => []
  | fuel + 1, b :: bs =>
    let s := utf8DecodeStep b bs
    s.1 :: utf8DecodeAux fuel s.2

/-- WHATWG UTF-8 decoding with replacement, as performed by Node
Buffer.toString("utf8") on arbitrary bytes. -/
def utf8Decode (bs : List Nat) : List Char :=
  utf8DecodeAux bs.length bs

/-- Maximum byte budget for accumulated stream content (STREAM_MAX_BYTES). -/
def STREAM_MAX_BYTES : Nat := 20480

/-- Shallow embedding of truncateUtf8Bytes (wecom-bot.ts): encode to UTF-8,
return the input unchanged when it fits, otherwise keep the trailing
maxBytes bytes and decode them back to a string. -/
def truncateUtf8Bytes (text : String) (maxBytes : Nat) : String :=
  let buf := utf8Encode text.data
  if buf.length ≤ maxBytes then text
  else String.mk (utf8Decode (buf.drop (buf.length - maxBytes)))

example : truncateUtf8Bytes "hello" 5 = "hello" := by decide
example : truncateUtf8Bytes "hello" 3 = "llo" := by decide

theorem isCont_iff (b : Nat) : isCont b = true ↔ 0x80 ≤ b ∧ b < 0xC0 := by
  simp [isCont]

theorem cont3Ok_iff (lead b1 : Nat) :
    cont3Ok lead b1 = true ↔
      (lead = 0xE0 ∧ 0xA0 ≤ b1 ∧ b1 < 0xC0) ∨
      (lead = 0xED ∧ 0x80 ≤ b1 ∧ b1 < 0xA0) ∨
      (lead ≠ 0xE0 ∧ lead ≠ 0xED ∧ 0x80 ≤ b1 ∧ b1 < 0xC0) := by
  rw [cont3Ok]
  split
  · simp_all
  · split
    · simp_all
    · simp_all [isCont_iff]

theorem cont4Ok_iff (lead b1 : Nat) :
    cont4Ok lead b1 = true ↔
      (lead = 0xF0 ∧ 0x90 ≤ b1 ∧ b1 < 0xC0) ∨
      (lead = 0xF4 ∧ 0x80 ≤ b1 ∧ b1 < 0x90) ∨
      (lead ≠ 0xF0 ∧ lead ≠ 0xF4 ∧ 0x80 ≤ b1 ∧ b1 < 0xC0) := by
  rw [cont4Ok]
  split
  · simp_all
  · split
    · simp_all
    · simp_all [isCont_iff]

theorem utf8DecodeStep_length (b : Nat) (bs : List Nat) :
    (utf8DecodeStep b bs).2.length ≤ bs.length := by
  rw [utf8DecodeStep.eq_def]
  repeat' split
  all_goals simp_all
  all_goals omega

theorem utf8DecodeAux_nil (fuel : Nat) : utf8DecodeAux fuel [] = [] := by
  cases fuel <;> rfl

theorem utf8DecodeAux_fuel (fuel1 fuel2 : Nat) (l : List Nat)
    (h1 : l.length ≤ fuel1) (h2 : l.length ≤ fuel2) :
    utf8DecodeAux fuel1 l = utf8DecodeAux fuel2 l := by
  induction fuel1 generalizing l fuel2 with
  | zero =>
    match l with
    | [] => rw [utf8DecodeAux_nil, utf8DecodeAux_nil]
    | _ :: _ => simp at h1
  | succ n ih =>
    match l, fuel2 with
    | [], _ => rw [utf8DecodeAux_nil, utf8DecodeAux_nil]
    | _ :: _, 0 => simp at h2
    | b :: bs, m + 1 =>
      rw [utf8DecodeAux, utf8DecodeAux]
      have hs := utf8DecodeStep_length b bs
      simp only [List.length_cons] at h1 h2
      have := ih m (utf8DecodeStep b bs).2 (by omega) (by omega)
      simp only [this]

theorem utf8Decode_cons (b : Nat) (bs : List Nat) :
    utf8Decode (b :: bs) =
      (utf8DecodeStep b bs).1 :: utf8Decode (utf8DecodeStep b bs).2 := by
  rw [utf8Decode, utf8Decode, List.length_cons, utf8DecodeAux]
  have hs := utf8DecodeStep_length b bs
  have := utf8DecodeAux_fuel bs.length (utf8DecodeStep b bs).2.length (utf8DecodeStep b bs).2
    (by omega) (by omega)
  simp only [this]

theorem utf8DecodeStep_ascii (b : Nat) (bs : List Nat) (h : b < 0x80) :
    utf8DecodeStep b bs = (Char.ofNat b, bs) := by
  rw [utf8DecodeStep.eq_def, if_pos h]

theorem utf8DecodeStep_cont (b : Nat) (bs : List Nat) (h1 : 0x80 ≤ b) (h2 : b < 0xC2) :
    utf8DecodeStep b bs = (replChar, bs) := by
  rw [utf8DecodeStep.eq_def, if_neg (by omega), if_pos h2]

theorem utf8DecodeStep_two (b b1 : Nat) (bs : List Nat) (h1 : 0xC2 ≤ b) (h2 : b < 0xE0)
    (h3 : isCont b1 = true) :
    utf8DecodeStep b (b1 :: bs) = (Char.ofNat ((b - 0xC0) * 64 + (b1 - 0x80)), bs) := by
  rw [utf8DecodeStep.eq_def, if_neg (by omega), if_neg (by omega), if_pos h2]
  simp only [h3, if_true]

theorem utf8DecodeStep_three (b b1 b2 : Nat) (bs : List Nat) (h1 : 0xE0 ≤ b) (h2 : b < 0xF0)
    (h3 : cont3Ok b b1 = true) (h4 : isCont b2 = true) :
    utf8DecodeStep b (b1 :: b2 :: bs) =
      (Char.ofNat ((b - 0xE0) * 4096 + (b1 - 0x80) * 64 + (b2 - 0x80)), bs) := by
  rw [utf8DecodeStep.eq_def, if_neg (by omega), if_neg (by omega), if_neg (by omega),
    if_pos h2]
  simp only [h3, h4, if_true]

theorem utf8DecodeStep_four (b b1 b2 b3 : Nat) (bs : List Nat) (h1 : 0xF0 ≤ b) (h2 : b < 0xF5)
    (h3 : cont4Ok b b1 = true) (h4 : isCont b2 = true) (h5 : isCont b3 = true) :
    utf8DecodeStep b (b1 :: b2 :: b3 :: bs) =
      (Char.ofNat ((b - 0xF0) * 262144 + (b1 - 0x80) * 4096 + (b2 - 0x80) * 64 + (b3 - 0x80)),
        bs) := by
  rw [utf8DecodeStep.eq_def, if_neg (by omega), if_neg (by omega), if_neg (by omega),
    if_neg (by omega), if_pos h2]
  simp only [h3, h4, h5, if_true]

theorem toNat_valid (c : Char) :
    c.toNat < 0xD800 ∨ (0xDFFF < c.toNat ∧ c.toNat < 0x110000) := c.valid

theorem utf8Decode_encodeChar (c : Char) (rest : List Nat) :
    utf8Decode (utf8EncodeChar c ++ rest) = c :: utf8Decode rest := by
  have hv := toNat_valid c
  rw [utf8EncodeChar]
  by_cases h1 : c.toNat < 0x80
  · rw [utf8EncodeNat, if_pos h1]
    show utf8Decode (c.toNat :: rest) = _
    rw [utf8Decode_cons, utf8DecodeStep_ascii _ _ h1, Char.ofNat_toNat]
  · by_cases h2 : c.toNat < 0x800
    · rw [utf8EncodeNat, if_neg h1, if_pos h2]
      show utf8Decode ((0xC0 + c.toNat / 64) :: (0x80 + c.toNat % 64) :: rest) = _
      rw [utf8Decode_cons, utf8DecodeStep_two _ _ _ (by omega) (by omega)
        ((isCont_iff _).mpr (by omega))]
      have h3 : (0xC0 + c.toNat / 64 - 0xC0) * 64 + (0x80 + c.toNat % 64 - 0x80) = c.toNat := by
        omega
      rw [h3, Char.ofNat_toNat]
    · by_cases h3 : c.toNat < 0x10000
      · rw [utf8EncodeNat, if_neg h1, if_neg h2, if_pos h3]
        show utf8Decode
          ((0xE0 + c.toNat / 4096) :: (0x80 + c.toNat / 64 % 64) :: (0x80 + c.toNat % 64) :: rest) = _
        rw [utf8Decode_cons, utf8DecodeStep_three _ _ _ _ (by omega) (by omega)
          ((cont3Ok_iff _ _).mpr (by omega)) ((isCont_iff _).mpr (by omega))]
        have h4 : (0xE0 + c.toNat / 4096 - 0xE0) * 4096 + (0x80 + c.toNat / 64 % 64 - 0x80) * 64
            + (0x80 + c.toNat % 64 - 0x80) = c.toNat := by omega
        rw [h4, Char.ofNat_toNat]
      · have h5 : c.toNat < 0x110000 := by omega
        rw [utf8EncodeNat, if_neg h1, if_neg h2, if_neg h3]
        show utf8Decode ((0xF0 + c.toNat / 262144) :: (0x80 + c.toNat / 4096 % 64) ::
          (0x80 + c.toNat / 64 % 64) :: (0x80 + c.toNat % 64) :: rest) = _
        rw [utf8Decode_cons, utf8DecodeStep_four _ _ _ _ _ (by omega) (by omega)
          ((cont4Ok_iff _ _).mpr (by omega)) ((isCont_iff _).mpr (by omega))
          ((isCont_iff _).mpr (by omega))]
        have h6 : (0xF0 + c.toNat / 262144 - 0xF0) * 262144 + (0x80 + c.toNat / 4096 % 64 - 0x80) * 4096
            + (0x80 + c.toNat / 64 % 64 - 0x80) * 64 + (0x80 + c.toNat % 64 - 0x80) = c.toNat := by
          omega
        rw [h6, Char.ofNat_toNat]



theorem utf8Encode_nil : utf8Encode [] = [] := rfl

theorem utf8Encode_cons (c : Char) (l : List Char) :
    utf8Encode (c :: l) = utf8EncodeChar c ++ utf8Encode l := rfl

theorem utf8Encode_append (l1 l2 : List Char) :
    utf8Encode (l1 ++ l2) = utf8Encode l1 ++ utf8Encode l2 := by
  induction l1 with
  | nil => rfl
  | cons c l ih => simp [utf8Encode_cons, ih]

theorem utf8Decode_encode (l : List Char) : utf8Decode (utf8Encode l) = l := by
  induction l with
  | nil => rfl
  | cons c l ih => rw [utf8Encode_cons, utf8Decode_encodeChar, ih]

theorem utf8Decode_cont_cons (b : Nat) (bs : List Nat) (h : isCont b = true) :
    utf8Decode (b :: bs) = replChar :: utf8Decode bs := by
  rw [isCont_iff] at h
  rw [utf8Decode_cons, utf8DecodeStep_cont b bs (by omega) (by omega)]

theorem utf8EncodeChar_length (c : Char) :
    1 ≤ (utf8EncodeChar c).length ∧ (utf8EncodeChar c).length ≤ 4 := by
  rw [utf8EncodeChar, utf8EncodeNat]
  repeat' split
  all_goals simp

theorem utf8EncodeChar_drop_cont (c : Char) (m : Nat) (h : 1 ≤ m) :
    ∀ b ∈ (utf8EncodeChar c).drop m, isCont b = true := by
  rw [utf8EncodeChar, utf8EncodeNat]
  repeat' split
  all_goals intro b hb
  all_goals rw [isCont_iff]
  all_goals match m, hb with
  | 1, hb => simp at hb; try omega
  | 2, hb => simp at hb; try omega
  | 3, hb => simp at hb; try omega
  | n + 4, hb => simp at hb



theorem encode_drop_structure (l : List Char) (n : Nat) :
    ∃ junk tail, (utf8Encode l).drop n = junk ++ utf8Encode tail ∧
      junk.length ≤ 3 ∧ ∀ b ∈ junk, isCont b = true := by
  induction l generalizing n with
  | nil =>
    refine ⟨[], [], ?_, by simp, by simp⟩
    simp [utf8Encode_nil]
  | cons c l ih =>
    rw [utf8Encode_cons]
    rcases Nat.lt_or_ge n 1 with h0 | h1
    · interval_cases n
      exact ⟨[], c :: l, by simp [utf8Encode_cons], by simp, by simp⟩
    · rcases Nat.lt_or_ge n (utf8EncodeChar c).length with hlt | hge
      · refine ⟨(utf8EncodeChar c).drop n, l, ?_, ?_, utf8EncodeChar_drop_cont c n h1⟩
        · rw [List.drop_append_of_le_length (Nat.le_of_lt hlt)]
        · have := (utf8EncodeChar_length c).2
          simp only [List.length_drop]
          omega
      · obtain ⟨junk, tail, heq, hlen, hcont⟩ := ih (n - (utf8EncodeChar c).length)
        refine ⟨junk, tail, ?_, hlen, hcont⟩
        rw [List.drop_append_eq_append_drop]
        rw [List.drop_of_length_le hge]
        simpa using heq

theorem utf8Decode_junk_encode (junk : List Nat) (l : List Char)
    (hc : ∀ b ∈ junk, isCont b = true) :
    utf8Decode (junk ++ utf8Encode l) = List.replicate junk.length replChar ++ l := by
  induction junk with
  | nil => simpa using utf8Decode_encode l
  | cons b junk ih =>
    rw [List.cons_append, utf8Decode_cont_cons b _ (hc b (by simp))]
    rw [ih (fun x hx => hc x (by simp [hx]))]
    simp [List.replicate_succ]

theorem utf8EncodeChar_repl_length : (utf8EncodeChar replChar).length = 3 := by decide

theorem utf8Encode_replicate_repl (k : Nat) :
    (utf8Encode (List.replicate k replChar)).length = 3 * k := by
  induction k with
  | zero => simp [utf8Encode_nil]
  | succ m ih =>
    rw [List.replicate_succ, utf8Encode_cons]
    simp only [List.length_append, ih, utf8EncodeChar_repl_length]
    omega



/-- Claim C3 (corrected).  For every string and positive byte budget,
truncateUtf8Bytes returns the input unchanged when its UTF-8 encoding fits
the budget; otherwise it returns exactly the WHATWG decoding of the trailing
budget-many bytes of the UTF-8 encoding (front bytes dropped, tail
preserved), and the UTF-8 byte length of the result exceeds the budget by at
most 6 bytes (the replacement-character expansion of one character cut at
the truncation boundary), not never as the original claim stated. -/
theorem C3_stream_truncation (text : String) (maxBytes : Nat) (hpos : 0 < maxBytes) :
    (utf8ByteLength text ≤ maxBytes → truncateUtf8Bytes text maxBytes = text) ∧
    (maxBytes < utf8ByteLength text →
      (truncateUtf8Bytes text maxBytes).data =
        utf8Decode ((utf8Encode text.data).drop (utf8ByteLength text - maxBytes)) ∧
      utf8ByteLength (truncateUtf8Bytes text maxBytes) ≤ maxBytes + 6) := by
  constructor
  · intro hfit
    rw [truncateUtf8Bytes]
    simp only [utf8ByteLength] at hfit
    rw [if_pos hfit]
  · intro hover
    simp only [utf8ByteLength] at hover
    have hres : truncateUtf8Bytes text maxBytes =
        String.mk (utf8Decode ((utf8Encode text.data).drop
          ((utf8Encode text.data).length - maxBytes))) := by
      rw [truncateUtf8Bytes]
      rw [if_neg (by omega)]
    constructor
    · rw [hres]
      rfl
    · obtain ⟨junk, tail, heq, hlen, hcont⟩ :=
        encode_drop_structure text.data ((utf8Encode text.data).length - maxBytes)
      have hsufflen : ((utf8Encode text.data).drop
          ((utf8Encode text.data).length - maxBytes)).length = maxBytes := by
        simp only [List.length_drop]
        omega
      have henclen : (utf8Encode tail).length = maxBytes - junk.length := by
        have := congrArg List.length heq
        simp only [List.length_append] at this
        omega
      rw [hres]
      simp only [utf8ByteLength]
      show (utf8Encode (utf8Decode ((utf8Encode text.data).drop
        ((utf8Encode text.data).length - maxBytes)))).length ≤ maxBytes + 6
      rw [heq, utf8Decode_junk_encode junk tail hcont, utf8Encode_append,
        List.length_append, utf8Encode_replicate_repl, henclen]
      have hjm : junk.length ≤ maxBytes := by
        have := congrArg List.length heq
        simp only [List.length_append] at this
        omega
      omega

/-- Claim C3 counterexample: with budget 1 the single two-byte character
U+00E9 is truncated to its final continuation byte, which decodes to U+FFFD,
a string of UTF-8 byte length 3 exceeding the budget of 1. -/
theorem C3_counterexample :
    0 < 1 ∧ 1 < utf8ByteLength (truncateUtf8Bytes "é" 1) := by decide

/-- Claim C3 witness: the amended theorem instantiated at a concrete
over-budget input. -/
theorem C3_stream_truncation_witness :
    (utf8ByteLength "中中" ≤ 4 → truncateUtf8Bytes "中中" 4 = "中中") ∧
    (4 < utf8ByteLength "中中" →
      (truncateUtf8Bytes "中中" 4).data =
        utf8Decode ((utf8Encode "中中".data).drop (utf8ByteLength "中中" - 4)) ∧
      utf8ByteLength (truncateUtf8Bytes "中中" 4) ≤ 4 + 6) :=
  C3_stream_truncation "中中" 4 (by decide)

/-! ## Outbound network client (wecom-api.ts)

resolveNetworkConfig and fetchWithRetry.  A network attempt is modelled by
its outcome: success with a response, or failure (transport error or the
per-attempt timeout firing, which aborts the attempt).  The real-time sleep
between attempts is recorded as data. -/

/-- The account.config.network record: each field is absent or a JS number
(possibly non-positive, hence Int). -/
structure NetworkConfig where
  timeoutMs : Option Int
  retries : Option Int
  retryDelayMs : Option Int

/-- Resolved network parameters. -/
structure ResolvedNetwork where
  timeoutMs : Nat
  retries : Nat
  retryDelayMs : Nat
  deriving DecidableEq, Repr

/-- Shallow embedding of resolveNetworkConfig (wecom-api.ts): positive
timeout else 15000; non-negative retries else 2; non-negative delay else
300. -/
def resolveNetworkConfig (cfg : NetworkConfig) : ResolvedNetwork where
  timeoutMs := match cfg.timeoutMs with
    | some t => if 0 < t then t.toNat else 15000
    | none => 15000
  retries := match cfg.retries with
    | some r => if 0 ≤ r then r.toNat else 2
    | none => 2
  retryDelayMs := match cfg.retryDelayMs with
    | some d => if 0 ≤ d then d.toNat else 300
    | none => 300

/-- Result of a fetchWithRetry run: the propagated outcome, the number of
attempts performed, and the sleeps (in ms) taken before each retry, in
order. -/
structure RetryRun where
  result : Except String String
  attempts : Nat
  sleeps : List Nat
  deriving Repr

/-- The while loop of fetchWithRetry: attempt is the current 0-based attempt
index, rem the number of loop iterations still allowed (retries + 1 -
attempt at entry).  On failure with attempt below retries, sleep
retryDelayMs * max 1 (attempt + 1) and try again; otherwise propagate the
last error. -/
def fetchWithRetryLoop (outcomes : Nat → Except String String) (retries delay : Nat) :
    Nat → Nat → RetryRun
  | _, 0 => ⟨.error "", 0, []⟩
  | attempt, rem + 1 =>
    match outcomes attempt with
    | .ok res => ⟨.ok res, attempt + 1, []⟩
    | .error e =>
      if retries ≤ attempt then ⟨.error e, attempt + 1, []⟩
      else
        let r := fetchWithRetryLoop outcomes retries delay (attempt + 1) rem
        ⟨r.result, r.attempts, delay * max 1 (attempt + 1) :: r.sleeps⟩

/-- Shallow embedding of fetchWithRetry (wecom-api.ts), given the outcome of
every attempt (attempt k fails when the transport errors or the per-attempt
timeout of timeoutMs aborts it). -/
def fetchWithRetry (cfg : NetworkConfig) (outcomes : Nat → Except String String) : RetryRun :=
  let rc := resolveNetworkConfig cfg
  fetchWithRetryLoop outcomes rc.retries rc.retryDelayMs 0 (rc.retries + 1)

/-- An absent network config resolves to all defaults. -/
def defaultNetworkConfig : NetworkConfig := ⟨none, none, none⟩

theorem fetchWithRetryLoop_all_fail_aux (outcomes : Nat → Except String String)
    (retries delay : Nat) (n : Nat) :
    ∀ attempt, retries - attempt = n → attempt ≤ retries →
    (∀ k, attempt ≤ k → k ≤ retries → ∃ e, outcomes k = .error e) →
    fetchWithRetryLoop outcomes retries delay attempt (n + 1) =
      ⟨outcomes retries, retries + 1,
        (List.range n).map (fun i => delay * (attempt + i + 1))⟩ := by
  induction n with
  | zero =>
    intro attempt hd h hf
    have : attempt = retries := by omega
    subst this
    obtain ⟨e, he⟩ := hf attempt le_rfl le_rfl
    rw [fetchWithRetryLoop, he]
    simp [he]
  | succ n ih =>
    intro attempt hd h hf
    obtain ⟨e, he⟩ := hf attempt le_rfl (by omega)
    rw [fetchWithRetryLoop, he]
    simp only
    rw [if_neg (by omega)]
    have hstep := ih (attempt + 1) (by omega) (by omega)
      (fun k hk1 hk2 => hf k (by omega) hk2)
    rw [hstep]
    have hmax : max 1 (attempt + 1) = attempt + 1 := by omega
    have hlist : delay * max 1 (attempt + 1)
          :: List.map (fun i => delay * (attempt + 1 + i + 1)) (List.range n)
        = List.map (fun i => delay * (attempt + i + 1)) (List.range (n + 1)) := by
      rw [List.range_succ_eq_map, List.map_cons, List.map_map]
      congr 1
      · rw [hmax]
      · apply List.map_congr_left
        intro i hi
        simp only [Function.comp_apply, Nat.succ_eq_add_one]
        congr 1
        omega
    rw [hlist]

theorem fetchWithRetryLoop_first_ok_aux (outcomes : Nat → Except String String)
    (retries delay : Nat) (n : Nat) :
    ∀ attempt rem res, n + attempt ≤ retries → n < rem →
    (∀ k, attempt ≤ k → k < n + attempt → ∃ e, outcomes k = .error e) →
    outcomes (n + attempt) = .ok res →
    fetchWithRetryLoop outcomes retries delay attempt rem =
      ⟨.ok res, n + attempt + 1,
        (List.range n).map (fun i => delay * (attempt + i + 1))⟩ := by
  induction n with
  | zero =>
    intro attempt rem res hle hrem hf hok
    match rem with
    | r + 1 =>
      simp only [Nat.zero_add] at hok
      rw [fetchWithRetryLoop, hok]
      simp
  | succ n ih =>
    intro attempt rem res hle hrem hf hok
    match rem with
    | r + 1 =>
      obtain ⟨e, he⟩ := hf attempt le_rfl (by omega)
      rw [fetchWithRetryLoop, he]
      simp only
      rw [if_neg (by omega)]
      have hstep := ih (attempt + 1) r res (by omega) (by omega)
        (fun k hk1 hk2 => hf k (by omega) (by omega)) (by rw [← hok]; congr 1; omega)
      rw [hstep]
      have hmax : max 1 (attempt + 1) = attempt + 1 := by omega
      have hlist : delay * max 1 (attempt + 1)
            :: List.map (fun i => delay * (attempt + 1 + i + 1)) (List.range n)
          = List.map (fun i => delay * (attempt + i + 1)) (List.range (n + 1)) := by
        rw [List.range_succ_eq_map, List.map_cons, List.map_map]
        congr 1
        · rw [hmax]
        · apply List.map_congr_left
          intro i hi
          simp only [Function.comp_apply, Nat.succ_eq_add_one]
          congr 1
          omega
      rw [hlist]
      have hatt : n + (attempt + 1) + 1 = n + 1 + attempt + 1 := by omega
      rw [hatt]

/-- Claim C9.  Every outbound call through fetchWithRetry resolves its
parameters to the defaults 15000ms per-attempt timeout, 2 retries, 300ms
base delay when unconfigured; when all retries + 1 attempts fail it sleeps
retryDelayMs * 1, retryDelayMs * 2, ... before each retry and propagates the
error of the last attempt; when attempt n is the first success it returns
that response after n + 1 attempts with the same linearly increasing sleeps
before each retry. -/
theorem C9_fetch_retry (cfg : NetworkConfig) (outcomes : Nat → Except String String) :
    resolveNetworkConfig defaultNetworkConfig = ⟨15000, 2, 300⟩ ∧
    ((∀ k, k ≤ (resolveNetworkConfig cfg).retries → ∃ e, outcomes k = .error e) →
      fetchWithRetry cfg outcomes =
        ⟨outcomes (resolveNetworkConfig cfg).retries, (resolveNetworkConfig cfg).retries + 1,
          (List.range (resolveNetworkConfig cfg).retries).map
            (fun i => (resolveNetworkConfig cfg).retryDelayMs * (i + 1))⟩) ∧
    (∀ n res, n ≤ (resolveNetworkConfig cfg).retries →
      (∀ k, k < n → ∃ e, outcomes k = .error e) → outcomes n = .ok res →
      fetchWithRetry cfg outcomes =
        ⟨.ok res, n + 1,
          (List.range n).map (fun i => (resolveNetworkConfig cfg).retryDelayMs * (i + 1))⟩) := by
  refine ⟨rfl, ?_, ?_⟩
  · intro hf
    rw [fetchWithRetry]
    have h := fetchWithRetryLoop_all_fail_aux outcomes (resolveNetworkConfig cfg).retries
      (resolveNetworkConfig cfg).retryDelayMs (resolveNetworkConfig cfg).retries 0 (by omega)
      (by omega) (fun k _ hk2 => hf k hk2)
    rw [h]
    congr 1
    apply List.map_congr_left
    intro i hi
    congr 1
    omega
  · intro n res hle hf hok
    rw [fetchWithRetry]
    have h := fetchWithRetryLoop_first_ok_aux outcomes (resolveNetworkConfig cfg).retries
      (resolveNetworkConfig cfg).retryDelayMs n 0 ((resolveNetworkConfig cfg).retries + 1) res
      (by omega) (by omega) (fun k _ hk2 => hf k (by omega)) (by simpa using hok)
    rw [h]
    congr 1
    apply List.map_congr_left
    intro i hi
    congr 1
    omega

/-- Claim C9 witness: with the default configuration and every attempt
failing, there are exactly 3 attempts with sleeps of 300ms and 600ms and the
last error is propagated; with success on the second attempt there are 2
attempts and one 300ms sleep. -/
theorem C9_fetch_retry_witness :
    fetchWithRetry defaultNetworkConfig (fun _ => .error "boom") =
      ⟨.error "boom", 3, [300, 600]⟩ ∧
    fetchWithRetry defaultNetworkConfig
        (fun k => if k = 0 then .error "boom" else .ok "resp") =
      ⟨.ok "resp", 2, [300]⟩ := by
  constructor
  · have h := (C9_fetch_retry defaultNetworkConfig (fun _ => .error "boom")).2.1
      (fun k _ => ⟨"boom", rfl⟩)
    rw [h]
    rfl
  · have h := (C9_fetch_retry defaultNetworkConfig
        (fun k => if k = 0 then .error "boom" else .ok "resp")).2.2 1 "resp"
      (by decide)
      (fun k hk => ⟨"boom", by interval_cases k; rfl⟩)
      (by rfl)
    rw [h]
    rfl

/-! ## Access-token cache (wecom-api.ts, getWecomAccessToken)

The per-corp-id cache entry is a WecomTokenState; the refreshPromise field
is modelled by its presence (a refresh in flight) plus an explicit
completion step that every awaiting caller shares.  The event loop runs the
synchronous part of each call atomically, so K concurrent callers arriving
before the network response are K successive getTokenStep calls followed by
one finishTokenRefresh. -/

/-- Cache entry: token (null or a string, where the empty string is falsy in
JS), absolute expiry, and whether a refresh promise is in flight. -/
structure WecomTokenState where
  token : Option String
  expiresAt : Nat
  refreshInFlight : Bool
  deriving DecidableEq, Repr

/-- What the synchronous part of getWecomAccessToken does for one caller. -/
inductive TokenAction where
  | useCached (tok : String)
  | awaitInFlight
  | startRefresh
  deriving DecidableEq, Repr

/-- Whether the cached token is valid: truthy token and expiry more than
60000ms after now. -/
def tokenCacheValid (st : WecomTokenState) (now : Nat) : Bool :=
  match st.token with
  | some tok => tok ≠ "" && now + 60000 < st.expiresAt
  | none => false

/-- Shallow embedding of the synchronous prefix of getWecomAccessToken:
return the cached token if valid; else share an in-flight refresh; else
start a refresh, setting the in-flight marker. -/
def getTokenStep (st : WecomTokenState) (now : Nat) : TokenAction × WecomTokenState :=
  match st.token with
  | some tok =>
    if tok ≠ "" && now + 60000 < st.expiresAt then (.useCached tok, st)
    else if st.refreshInFlight then (.awaitInFlight, st)
    else (.startRefresh, { st with refreshInFlight := true })
  | none =>
    if st.refreshInFlight then (.awaitInFlight, st)
    else (.startRefresh, { st with refreshInFlight := true })

/-- Response of the gettoken endpoint: accessToken empty models a missing or
falsy access_token field, expiresIn 0 a missing or falsy expires_in. -/
structure TokenJson where
  accessToken : String
  expiresIn : Nat
  deriving DecidableEq, Repr

/-- Shallow embedding of the refresh body of getWecomAccessToken: on a
transport error or a falsy access_token, fail; otherwise cache the token
with expiry now2 + (expires_in or 7200) * 1000.  The finally clause clears
the in-flight marker on every path.  The returned value is what the shared
refresh promise settles to, observed by every awaiting caller. -/
def finishTokenRefresh (st : WecomTokenState) (outcome : Except String TokenJson)
    (now2 : Nat) : WecomTokenState × Except String String :=
  match outcome with
  | .error e => ({ st with refreshInFlight := false }, .error e)
  | .ok j =>
    if j.accessToken = "" then
      ({ st with refreshInFlight := false }, .error "WeCom gettoken failed")
    else
      ({ token := some j.accessToken,
         expiresAt := now2 + (if j.expiresIn = 0 then 7200 else j.expiresIn) * 1000,
         refreshInFlight := false },
       .ok j.accessToken)

/-- K callers entering getWecomAccessToken in one event-loop window, before
any network response: each runs the synchronous prefix in turn. -/
def runTokenCallers (st : WecomTokenState) (now : Nat) : Nat → WecomTokenState × List TokenAction
  | 0 => (st, [])
  | k + 1 =>
    let r := getTokenStep st now
    let rest := runTokenCallers r.2 now k
    (rest.1, r.1 :: rest.2)

/-- Number of underlying network calls started by a list of actions. -/
def countStarts (as : List TokenAction) : Nat :=
  as.countP (fun a => a = .startRefresh)

theorem runTokenCallers_inFlight (st : WecomTokenState) (now : Nat) (k : Nat)
    (hv : tokenCacheValid st now = false) (hf : st.refreshInFlight = true) :
    runTokenCallers st now k = (st, List.replicate k .awaitInFlight) := by
  induction k with
  | zero => rfl
  | succ n ih =>
    have hstep : getTokenStep st now = (.awaitInFlight, st) := by
      rw [getTokenStep.eq_def]
      match hst : st.token with
      | some tok =>
        rw [tokenCacheValid, hst] at hv
        simp only at hv
        rw [if_pos hf]
        simp only [Bool.and_eq_false_iff, decide_eq_false_iff_not, Decidable.not_not,
          not_lt] at hv
        simp only []
        rw [if_neg]
        simp only [Bool.and_eq_true, decide_eq_true_eq, not_and]
        intro hne
        rcases hv with h | h
        · exact absurd h hne
        · omega
      | none =>
        rw [if_pos hf]
    rw [runTokenCallers, hstep]
    simp only
    rw [ih]
    rfl

/-- Results observed by the individual callers: a caller that used the cache
has its token; every caller that started or awaited the shared refresh
observes the settlement of the single refresh promise. -/
def concurrentTokenResults (st : WecomTokenState) (now now2 : Nat)
    (outcome : Except String TokenJson) (k : Nat) : List (Except String String) :=
  let run := runTokenCallers st now k
  let fin := finishTokenRefresh run.1 outcome now2
  run.2.map (fun a => match a with
    | .useCached tok => .ok tok
    | _ => fin.2)

/-- Claim C2.  Valid cached token: returned with no state change and no
network call.  Otherwise, with no refresh in flight, k + 1 concurrent
callers produce exactly one startRefresh (the single network call) and k
awaits, and every caller observes the settlement of that single refresh; the
in-flight marker is cleared by the refresh body on success and failure
alike, and on failure no token is cached. -/
theorem C2_token_single_flight (st : WecomTokenState) (now now2 : Nat) (k : Nat)
    (outcome : Except String TokenJson) :
    (∀ tok, st.token = some tok → tok ≠ "" → now + 60000 < st.expiresAt →
      getTokenStep st now = (.useCached tok, st)) ∧
    (tokenCacheValid st now = false → st.refreshInFlight = false →
      runTokenCallers st now (k + 1) =
        ({ st with refreshInFlight := true },
          .startRefresh :: List.replicate k .awaitInFlight) ∧
      countStarts (.startRefresh :: List.replicate k .awaitInFlight) = 1 ∧
      concurrentTokenResults st now now2 outcome (k + 1) =
        List.replicate (k + 1)
          (finishTokenRefresh { st with refreshInFlight := true } outcome now2).2) ∧
    ((finishTokenRefresh st outcome now2).1.refreshInFlight = false ∧
      ∀ e, outcome = .error e →
        (finishTokenRefresh st outcome now2).1.token = st.token ∧
        (finishTokenRefresh st outcome now2).1.expiresAt = st.expiresAt ∧
        (finishTokenRefresh st outcome now2).2 = .error e) := by
  refine ⟨?_, ?_, ?_, ?_⟩
  · intro tok hst hne hexp
    rw [getTokenStep.eq_def, hst]
    simp only
    rw [if_pos]
    simp [hne, hexp]
  · intro hv hnf
    have hstep : getTokenStep st now = (.startRefresh, { st with refreshInFlight := true }) := by
      rw [getTokenStep.eq_def]
      match hst : st.token with
      | some tok =>
        rw [tokenCacheValid, hst] at hv
        simp only at hv
        simp only [hv, Bool.false_eq_true, if_false, hnf]
      | none =>
        simp only [hnf, Bool.false_eq_true, if_false]
    have hrest := runTokenCallers_inFlight { st with refreshInFlight := true } now k
      (by rw [tokenCacheValid] at hv ⊢; exact hv) rfl
    have hrun : runTokenCallers st now (k + 1) =
        ({ st with refreshInFlight := true },
          .startRefresh :: List.replicate k .awaitInFlight) := by
      rw [runTokenCallers, hstep]
      simp only
      rw [hrest]
    refine ⟨hrun, by simp [countStarts, List.countP_replicate], ?_⟩
    rw [concurrentTokenResults]
    simp only [hrun]
    simp [List.map_replicate, List.replicate_succ]
  · rw [finishTokenRefresh.eq_def]
    match outcome with
    | .error e => rfl
    | .ok j =>
      simp only
      split
      · rfl
      · rfl
  · intro e he
    subst he
    exact ⟨rfl, rfl, rfl⟩

/-- Claim C2 witness: from a cold cache, three concurrent callers cause one
network call and two awaits, all observing the same successful token; and a
refresh failure clears the marker without caching. -/
theorem C2_token_single_flight_witness :
    runTokenCallers ⟨none, 0, false⟩ 1000 3 =
      (⟨none, 0, true⟩, [.startRefresh, .awaitInFlight, .awaitInFlight]) ∧
    concurrentTokenResults ⟨none, 0, false⟩ 1000 2000 (.ok ⟨"tok", 7200⟩) 3 =
      [.ok "tok", .ok "tok", .ok "tok"] ∧
    (finishTokenRefresh ⟨none, 0, true⟩ (.error "down") 2000).1 = ⟨none, 0, false⟩ := by
  have h := C2_token_single_flight ⟨none, 0, false⟩ 1000 2000 2 (.ok ⟨"tok", 7200⟩)
  have hb := h.2.1 (by decide) rfl
  have h2 := C2_token_single_flight ⟨none, 0, true⟩ 1000 2000 0 (.error "down")
  have hc := h2.2.2.2 "down" rfl
  refine ⟨?_, ?_, ?_⟩
  · rw [hb.1]
    rfl
  · rw [hb.2.2]
    rfl
  · have hflag := h2.2.2.1
    have htok := hc.1
    have hexp := hc.2.1
    cases hfin : (finishTokenRefresh ⟨none, 0, true⟩ (.error "down") 2000).1
    rw [hfin] at hflag htok hexp
    simp at hflag htok hexp
    simp [hflag, htok, hexp]

/-! ## RateLimiter (wecom-api.ts)

The limiter's mutable fields become a state record; the event loop is a
trace of events: execute pushes a job and triggers processQueue; a
processQueue invocation either dispatches the queue head (when below the
concurrency cap and past the minimum interval) or does nothing (the real
code schedules a later invocation via setTimeout, which appears in the
trace as a later tryDispatch); a completed call decrements running.  Job
identities are Nat. -/

/-- Mutable state of a RateLimiter instance. -/
structure RateLimiterState where
  maxConcurrent : Nat
  minInterval : Nat
  running : Nat
  queue : List Nat
  lastExecution : Nat
  deriving DecidableEq, Repr

/-- A fresh RateLimiter (the constructor): running 0, empty queue,
lastExecution 0; the apiLimiter instance uses maxConcurrent 3 and
minInterval 200. -/
def RateLimiter.init (maxConcurrent minInterval : Nat) : RateLimiterState :=
  ⟨maxConcurrent, minInterval, 0, [], 0⟩

/-- Event-loop events affecting a limiter. -/
inductive RLEvent where
  | enqueue (job : Nat)
  | tryDispatch (now : Nat)
  | complete
  deriving DecidableEq, Repr

/-- One event.  tryDispatch embeds the body of processQueue: return when at
the concurrency cap or the queue is empty; when the minimum interval since
lastExecution has not elapsed, schedule and return (no dispatch); otherwise
increment running, stamp lastExecution, and shift the queue head into
flight.  complete embeds the finally block decrementing running.  The second
component records a dispatch (job, start time) when one happened. -/
def rlStep (st : RateLimiterState) (e : RLEvent) : RateLimiterState × Option (Nat × Nat) :=
  match e with
  | .enqueue j => ({ st with queue := st.queue ++ [j] }, none)
  | .tryDispatch now =>
    if st.maxConcurrent ≤ st.running then (st, none)
    else
      match st.queue with
      | [] => (st, none)
      | j :: rest =>
        if now < st.lastExecution + st.minInterval then (st, none)
        else
          ({ st with running := st.running + 1, lastExecution := now, queue := rest },
            some (j, now))
  | .complete => ({ st with running := st.running - 1 }, none)

/-- Run a trace, accumulating the dispatches in order. -/
def rlRun (st : RateLimiterState) : List RLEvent → RateLimiterState × List (Nat × Nat)
  | [] => (st, [])
  | e :: es =>
    let r := rlStep st e
    let rest := rlRun r.1 es
    (rest.1, r.2.elim rest.2 (· :: rest.2))

/-- Jobs enqueued by a trace, in order. -/
def rlEnqueued : List RLEvent → List Nat
  | [] => []
  | .enqueue j :: es => j :: rlEnqueued es
  | .tryDispatch _ :: es => rlEnqueued es
  | .complete :: es => rlEnqueued es

theorem rlStep_const (st : RateLimiterState) (e : RLEvent) :
    (rlStep st e).1.maxConcurrent = st.maxConcurrent ∧
    (rlStep st e).1.minInterval = st.minInterval := by
  rw [rlStep.eq_def]
  match e with
  | .enqueue j => exact ⟨rfl, rfl⟩
  | .complete => exact ⟨rfl, rfl⟩
  | .tryDispatch now =>
    simp only
    split
    · exact ⟨rfl, rfl⟩
    · match st.queue with
      | [] => exact ⟨rfl, rfl⟩
      | j :: rest =>
        simp only
        split
        · exact ⟨rfl, rfl⟩
        · exact ⟨rfl, rfl⟩

theorem rlStep_running (st : RateLimiterState) (e : RLEvent)
    (h : st.running ≤ st.maxConcurrent) :
    (rlStep st e).1.running ≤ st.maxConcurrent := by
  rw [rlStep.eq_def]
  match e with
  | .enqueue j => exact h
  | .complete => simp only; omega
  | .tryDispatch now =>
    simp only
    split
    · exact h
    · rename_i hlt
      match st.queue with
      | [] => exact h
      | j :: rest =>
        simp only
        split
        · exact h
        · simp only
          omega

theorem rlRun_append (st : RateLimiterState) (es1 es2 : List RLEvent) :
    (rlRun st (es1 ++ es2)).1 = (rlRun (rlRun st es1).1 es2).1 := by
  induction es1 generalizing st with
  | nil => rfl
  | cons e es ih =>
    rw [List.cons_append, rlRun, rlRun]
    exact ih (rlStep st e).1

theorem rlRun_fifo (st : RateLimiterState) (es : List RLEvent) :
    (rlRun st es).2.map Prod.fst ++ (rlRun st es).1.queue = st.queue ++ rlEnqueued es := by
  induction es generalizing st with
  | nil => simp [rlRun, rlEnqueued]
  | cons e es ih =>
    rw [rlRun]
    match e with
    | .enqueue j =>
      rw [rlEnqueued]
      simp only [rlStep, Option.elim]
      rw [ih _]
      simp [rlStep]
    | .complete =>
      rw [rlEnqueued]
      simp only [rlStep, Option.elim]
      rw [ih _]
    | .tryDispatch now =>
      rw [rlEnqueued]
      rw [rlStep.eq_def]
      simp only
      split
      · simp only [Option.elim]
        exact ih st
      · match hq : st.queue with
        | [] =>
          simp only [Option.elim]
          have h := ih st
          rw [hq] at h
          exact h
        | j :: rest =>
          simp only
          split
          · simp only [Option.elim]
            have h := ih st
            rw [hq] at h
            exact h
          · simp only [Option.elim, List.map_cons, List.cons_append]
            rw [ih _]

theorem rlRun_first_dispatch (st : RateLimiterState) (es : List RLEvent) :
    ∀ d, (rlRun st es).2.head? = some d → st.lastExecution + st.minInterval ≤ d.2 := by
  induction es generalizing st with
  | nil => intro d hd; simp [rlRun] at hd
  | cons e es ih =>
    intro d hd
    rw [rlRun] at hd
    match e with
    | .enqueue j =>
      simp only [rlStep, Option.elim] at hd
      exact ih { st with queue := st.queue ++ [j] } d hd
    | .complete =>
      simp only [rlStep, Option.elim] at hd
      exact ih { st with running := st.running - 1 } d hd
    | .tryDispatch now =>
      rw [rlStep.eq_def] at hd
      simp only at hd
      by_cases hcap : st.maxConcurrent ≤ st.running
      · rw [if_pos hcap] at hd
        simp only [Option.elim] at hd
        exact ih st d hd
      · rw [if_neg hcap] at hd
        match hq : st.queue with
        | [] =>
          rw [hq] at hd
          simp only [Option.elim] at hd
          exact ih st d hd
        | j :: rest =>
          rw [hq] at hd
          simp only at hd
          by_cases hw : now < st.lastExecution + st.minInterval
          · rw [if_pos hw] at hd
            simp only [Option.elim] at hd
            exact ih st d hd
          · rw [if_neg hw] at hd
            simp only [Option.elim, List.head?_cons, Option.some.injEq] at hd
            subst hd
            omega

theorem rlRun_spacing (st : RateLimiterState) (es : List RLEvent) :
    List.Chain' (fun a b : Nat × Nat => a.2 + st.minInterval ≤ b.2) (rlRun st es).2 := by
  induction es generalizing st with
  | nil => simp [rlRun]
  | cons e es ih =>
    rw [rlRun]
    match e with
    | .enqueue j =>
      simp only [rlStep, Option.elim]
      exact ih _
    | .complete =>
      simp only [rlStep, Option.elim]
      exact ih _
    | .tryDispatch now =>
      rw [rlStep.eq_def]
      simp only
      by_cases hcap : st.maxConcurrent ≤ st.running
      · rw [if_pos hcap]
        simp only [Option.elim]
        exact ih st
      · rw [if_neg hcap]
        match hq : st.queue with
        | [] =>
          simp only [Option.elim]
          exact ih st
        | j :: rest =>
          simp only
          by_cases hw : now < st.lastExecution + st.minInterval
          · rw [if_pos hw]
            simp only [Option.elim]
            exact ih st
          · rw [if_neg hw]
            simp only [Option.elim]
            apply List.chain'_cons'.mpr
            refine ⟨?_, ih _⟩
            intro d hd
            have hfirst := rlRun_first_dispatch
              { st with running := st.running + 1, lastExecution := now, queue := rest } es d hd
            simp only at hfirst
            omega

theorem rlRun_running (st : RateLimiterState) (es : List RLEvent)
    (h : st.running ≤ st.maxConcurrent) :
    (rlRun st es).1.running ≤ (rlRun st es).1.maxConcurrent ∧
    (rlRun st es).1.maxConcurrent = st.maxConcurrent := by
  induction es generalizing st with
  | nil => exact ⟨h, rfl⟩
  | cons e es ih =>
    rw [rlRun]
    simp only
    have hstep := rlStep_running st e h
    have hconst := (rlStep_const st e).1
    have := ih (rlStep st e).1 (by omega)
    exact ⟨this.1, by omega⟩

/-- Claim C5.  From a fresh RateLimiter, over any event-loop trace:
dispatches happen in FIFO order (the dispatched jobs followed by the
still-queued jobs are exactly the enqueued jobs in order); the number of
in-flight calls never exceeds maxConcurrent at any point of the trace; and
consecutive dispatch start times are at least minInterval apart, measured
from the most recent dispatch regardless of which call it was.  Finally the
concrete scenario: with concurrency 1 and interval 200, three jobs enqueued
simultaneously are dispatched at times spaced 200 apart (a tryDispatch
arriving 100ms after the first dispatch does not dispatch). -/
theorem C5_rate_limiter (maxC minI : Nat) (events : List RLEvent) :
    ((rlRun (RateLimiter.init maxC minI) events).2.map Prod.fst ++
        (rlRun (RateLimiter.init maxC minI) events).1.queue = rlEnqueued events) ∧
    (∀ n, (rlRun (RateLimiter.init maxC minI) (events.take n)).1.running ≤ maxC) ∧
    List.Chain' (fun a b : Nat × Nat => a.2 + minI ≤ b.2)
      (rlRun (RateLimiter.init maxC minI) events).2 ∧
    (rlRun (RateLimiter.init 1 200)
        [.enqueue 1, .enqueue 2, .enqueue 3, .tryDispatch 1000, .complete, .tryDispatch 1100,
          .tryDispatch 1200, .complete, .tryDispatch 1400]).2 =
      [(1, 1000), (2, 1200), (3, 1400)] := by
  refine ⟨?_, ?_, ?_, by decide⟩
  · have h := rlRun_fifo (RateLimiter.init maxC minI) events
    simpa [RateLimiter.init] using h
  · intro n
    have h := rlRun_running (RateLimiter.init maxC minI) (events.take n) (by simp [RateLimiter.init])
    have : (rlRun (RateLimiter.init maxC minI) (events.take n)).1.maxConcurrent = maxC := h.2
    omega
  · exact rlRun_spacing (RateLimiter.init maxC minI) events


/-! ## CryptoChannel (spec section 4.1)

Modelled from the spec: the crypto module (crypto.ts, providing
encryptWecomPlaintext / decryptWecomEncrypted) is not part of the sources
under src/, only its callers are, so the encrypt/decrypt framing is modelled
from the specification text: frame = 16 random bytes, 4-byte big-endian
length, message, receiver id; PKCS#7 padding to the 32-byte block size;
block-cipher encryption in chained-block (CBC) mode.  Bytes are Nat values;
the keyed AES block cipher derived from the base64-decoded key material is
abstracted as a pair of functions E, D on 32-byte blocks with D (E b) = b,
and the IV (first 16 bytes of the key, zero-extended by the cipher
abstraction) as an explicit 32-byte xor mask. -/

/-- Bytewise xor of two byte lists. -/
def xorBytes (a b : List Nat) : List Nat := List.zipWith Nat.xor a b

/-- PKCS#7 padding: append p copies of p, where p = size - length % size. -/
def pkcs7Pad (size : Nat) (bs : List Nat) : List Nat :=
  let p := size - bs.length % size
  bs ++ List.replicate p p

/-- PKCS#7 unpadding: read the last byte p and remove the last p bytes,
failing (PaddingError) when p is out of range. -/
def pkcs7Unpad (size : Nat) (bs : List Nat) : Option (List Nat) :=
  match bs.getLast? with
  | none => none
  | some p =>
    if 1 ≤ p && p ≤ size && p ≤ bs.length then some (bs.take (bs.length - p))
    else none

/-- 4-byte big-endian encoding of a length. -/
def be4 (n : Nat) : List Nat :=
  [n / 16777216 % 256, n / 65536 % 256, n / 256 % 256, n % 256]

/-- Parse a 4-byte big-endian length. -/
def parseBe4 (bs : List Nat) : Nat :=
  match bs with
  | [a, b, c, d] => ((a * 256 + b) * 256 + c) * 256 + d
  | _ => 0

/-- Split a byte list into size-byte blocks (fuel-indexed; fuel at least the
byte count suffices for positive size). -/
def splitBlocksAux (size : Nat) : Nat → List Nat → List (List Nat)
  | _, [] => []
  | 0, _ :: _ => []
  | fuel + 1, bs => bs.take size :: splitBlocksAux size fuel (bs.drop size)

/-- Split a byte list into 32-byte blocks. -/
def splitBlocks32 (bs : List Nat) : List (List Nat) :=
  splitBlocksAux 32 bs.length bs

/-- CBC encryption over blocks: each plaintext block is xored with the
previous ciphertext block (initially the IV) and passed through the block
cipher E. -/
def cbcEncryptBlocks (E : List Nat → List Nat) (prev : List Nat) :
    List (List Nat) → List (List Nat)
  | [] => []
  | p :: ps =>
    let c := E (xorBytes prev p)
    c :: cbcEncryptBlocks E c ps

/-- CBC decryption over blocks: each ciphertext block is passed through the
block cipher inverse D and xored with the previous ciphertext block
(initially the IV). -/
def cbcDecryptBlocks (D : List Nat → List Nat) (prev : List Nat) :
    List (List Nat) → List (List Nat)
  | [] => []
  | c :: cs => xorBytes prev (D c) :: cbcDecryptBlocks D c cs

/-- Modelled from the spec: parse the decrypted frame
[16 random bytes][4-byte big-endian length][message][receiver id], verifying
that the declared length fits the buffer and that the receiver id equals the
expected one; any inconsistency is a hard FramingError. -/
def parseWecomFrame (expected : List Nat) (frame : List Nat) : Except String (List Nat) :=
  if frame.length < 20 then .error "FramingError"
  else
    let len := parseBe4 ((frame.drop 16).take 4)
    if frame.length < 20 + len then .error "FramingError"
    else
      let msg := (frame.drop 20).take len
      let recv := frame.drop (20 + len)
      if recv = expected then .ok msg else .error "FramingError: receiveId mismatch"

/-- Modelled from the spec: encryptWecomPlaintext builds the frame from 16
fresh random bytes, the big-endian plaintext length, the plaintext, and the
receiver id, pads it with PKCS#7 to 32 bytes, and CBC-encrypts it under the
abstract block cipher E with initialization vector iv. -/
def encryptWecomPlaintext (E : List Nat → List Nat) (iv rand receiveId plaintext : List Nat) :
    List Nat :=
  let frame := rand ++ be4 plaintext.length ++ plaintext ++ receiveId
  (cbcEncryptBlocks E iv (splitBlocks32 (pkcs7Pad 32 frame))).flatten

/-- Modelled from the spec: decryptWecomEncrypted CBC-decrypts the
ciphertext under the abstract block cipher inverse D, removes the PKCS#7
padding, and parses the frame against the expected receiver id. -/
def decryptWecomEncrypted (D : List Nat → List Nat) (iv expectedReceiveId ciphertext : List Nat) :
    Except String (List Nat) :=
  match pkcs7Unpad 32 (cbcDecryptBlocks D iv (splitBlocks32 ciphertext)).flatten with
  | none => .error "PaddingError"
  | some frame => parseWecomFrame expectedReceiveId frame

theorem xorBytes_cancel (a b : List Nat) (h : a.length = b.length) :
    xorBytes a (xorBytes a b) = b := by
  induction a generalizing b with
  | nil =>
    match b with
    | [] => rfl
  | cons x xs ih =>
    match b with
    | y :: ys =>
      simp only [xorBytes, List.zipWith_cons_cons] at *
      rw [ih ys (by simpa using h)]
      congr 1
      exact Nat.xor_cancel_left x y

theorem xorBytes_length (a b : List Nat) : (xorBytes a b).length = min a.length b.length := by
  simp [xorBytes]

theorem splitBlocksAux_nil (size fuel : Nat) : splitBlocksAux size fuel [] = [] := by
  cases fuel <;> rfl

theorem splitBlocksAux_cons (size f x : Nat) (xs : List Nat) :
    splitBlocksAux size (f + 1) (x :: xs) =
      (x :: xs).take size :: splitBlocksAux size f ((x :: xs).drop size) := rfl

theorem splitBlocksAux_flatten (blocks : List (List Nat))
    (hb : ∀ b ∈ blocks, b.length = 32) :
    ∀ fuel, blocks.flatten.length ≤ fuel →
    splitBlocksAux 32 fuel blocks.flatten = blocks := by
  induction blocks with
  | nil => intro fuel _; exact splitBlocksAux_nil 32 fuel
  | cons b bs ih =>
    intro fuel hle
    have hblen : b.length = 32 := hb b (by simp)
    have hflat : (b :: bs).flatten = b ++ bs.flatten := by simp
    rw [hflat] at hle ⊢
    have hpos : 1 ≤ fuel := by
      simp only [List.length_append, hblen] at hle
      omega
    have hne : b ++ bs.flatten ≠ [] := by
      intro hc
      have := congrArg List.length hc
      simp [hblen] at this
    obtain ⟨x, xs, hmatch⟩ := List.exists_cons_of_ne_nil hne
    match fuel, hpos with
    | f + 1, _ =>
      rw [hmatch, splitBlocksAux_cons, ← hmatch]
      have htake : (b ++ bs.flatten).take 32 = b := by
        rw [← hblen]
        exact List.take_left b bs.flatten
      have hdrop : (b ++ bs.flatten).drop 32 = bs.flatten := by
        rw [← hblen]
        exact List.drop_left b bs.flatten
      rw [htake, hdrop]
      rw [ih (fun blk hblk => hb blk (by simp [hblk])) f
        (by simp only [List.length_append, hblen] at hle; omega)]

theorem splitBlocks32_flatten (blocks : List (List Nat))
    (hb : ∀ b ∈ blocks, b.length = 32) :
    splitBlocks32 blocks.flatten = blocks :=
  splitBlocksAux_flatten blocks hb blocks.flatten.length le_rfl

theorem cbcEncryptBlocks_length (E : List Nat → List Nat)
    (hE : ∀ b, b.length = 32 → (E b).length = 32) (prev : List Nat) (hprev : prev.length = 32)
    (blocks : List (List Nat)) (hb : ∀ b ∈ blocks, b.length = 32) :
    ∀ c ∈ cbcEncryptBlocks E prev blocks, c.length = 32 := by
  induction blocks generalizing prev with
  | nil => intro c hc; simp [cbcEncryptBlocks] at hc
  | cons p ps ih =>
    intro c hc
    rw [cbcEncryptBlocks] at hc
    simp only [List.mem_cons] at hc
    have hxor : (xorBytes prev p).length = 32 := by
      rw [xorBytes_length, hprev, hb p (by simp)]
      simp
    have hcur : (E (xorBytes prev p)).length = 32 := hE _ hxor
    rcases hc with hc | hc
    · rw [hc]; exact hcur
    · exact ih (E (xorBytes prev p)) hcur (fun b hbm => hb b (by simp [hbm])) c hc

theorem cbcDecrypt_cbcEncrypt (E D : List Nat → List Nat) (hED : ∀ b, D (E b) = b)
    (prev : List Nat) (hprev : prev.length = 32) (blocks : List (List Nat))
    (hb : ∀ b ∈ blocks, b.length = 32) (hE : ∀ b, b.length = 32 → (E b).length = 32) :
    cbcDecryptBlocks D prev (cbcEncryptBlocks E prev blocks) = blocks := by
  induction blocks generalizing prev with
  | nil => rfl
  | cons p ps ih =>
    rw [cbcEncryptBlocks, cbcDecryptBlocks]
    rw [hED]
    have hxlen : prev.length = p.length := by rw [hprev, hb p (by simp)]
    rw [xorBytes_cancel prev p hxlen]
    congr 1
    exact ih (E (xorBytes prev p))
      (hE _ (by rw [xorBytes_length, hprev, hb p (by simp)]; simp))
      (fun b hbm => hb b (by simp [hbm]))

theorem getLast?_replicate_pos (n a : Nat) (h : 1 ≤ n) :
    (List.replicate n a).getLast? = some a := by
  induction n with
  | zero => omega
  | succ m ih =>
    rw [List.replicate_succ]
    match hm : m with
    | 0 => rfl
    | k + 1 =>
      rw [List.replicate_succ, List.getLast?_cons_cons, ← List.replicate_succ]
      exact ih (by omega)

theorem pkcs7Pad_blocks (bs : List Nat) : 32 ∣ (pkcs7Pad 32 bs).length := by
  rw [pkcs7Pad]
  simp only [List.length_append, List.length_replicate]
  have h := Nat.mod_lt bs.length (show 0 < 32 by omega)
  have hdvd : (bs.length + (32 - bs.length % 32)) % 32 = 0 := by omega
  exact Nat.dvd_of_mod_eq_zero hdvd

theorem pkcs7Unpad_pad (bs : List Nat) : pkcs7Unpad 32 (pkcs7Pad 32 bs) = some bs := by
  rw [pkcs7Pad, pkcs7Unpad]
  have hmod := Nat.mod_lt bs.length (show 0 < 32 by omega)
  have hrep : (List.replicate (32 - bs.length % 32) (32 - bs.length % 32) : List Nat) ≠ [] := by
    simp only [ne_eq, List.replicate_eq_nil_iff]
    omega
  rw [List.getLast?_append_of_ne_nil _ hrep]
  rw [getLast?_replicate_pos _ _ (by omega)]
  simp only [List.length_append, List.length_replicate]
  rw [if_pos (by simp only [Bool.and_eq_true, decide_eq_true_eq]; omega)]
  congr 1
  have hlen : bs.length + (32 - bs.length % 32) - (32 - bs.length % 32) = bs.length := by omega
  rw [hlen]
  exact List.take_left bs _

theorem parseBe4_be4 (n : Nat) (h : n < 4294967296) : parseBe4 (be4 n) = n := by
  rw [be4, parseBe4]
  omega

theorem be4_length (n : Nat) : (be4 n).length = 4 := rfl

theorem parseWecomFrame_roundtrip (rand msg recv : List Nat) (hrand : rand.length = 16)
    (hlen : msg.length < 4294967296) :
    parseWecomFrame recv (rand ++ be4 msg.length ++ msg ++ recv) = .ok msg := by
  have hframe : rand ++ be4 msg.length ++ msg ++ recv
      = rand ++ (be4 msg.length ++ (msg ++ recv)) := by simp [List.append_assoc]
  rw [parseWecomFrame]
  have hlen20 : (rand ++ be4 msg.length ++ msg ++ recv).length
      = 20 + msg.length + recv.length := by
    simp [hrand, be4_length]
    omega
  rw [if_neg (by omega)]
  have hdrop16 : (rand ++ be4 msg.length ++ msg ++ recv).drop 16
      = be4 msg.length ++ (msg ++ recv) := by
    rw [hframe, ← hrand]
    exact List.drop_left rand _
  have htake4 : ((rand ++ be4 msg.length ++ msg ++ recv).drop 16).take 4 = be4 msg.length := by
    rw [hdrop16, ← be4_length msg.length]
    exact List.take_left _ _
  rw [htake4, parseBe4_be4 _ hlen]
  rw [if_neg (by omega)]
  have hdrop20 : (rand ++ be4 msg.length ++ msg ++ recv).drop 20 = msg ++ recv := by
    have h1 : rand ++ be4 msg.length ++ msg ++ recv
        = (rand ++ be4 msg.length) ++ (msg ++ recv) := by simp [List.append_assoc]
    have h2 : (rand ++ be4 msg.length).length = 20 := by simp [hrand, be4_length]
    rw [h1, ← h2]
    exact List.drop_left _ _
  have htakemsg : ((rand ++ be4 msg.length ++ msg ++ recv).drop 20).take msg.length = msg := by
    rw [hdrop20]
    exact List.take_left _ _
  have hdroprecv : (rand ++ be4 msg.length ++ msg ++ recv).drop (20 + msg.length) = recv := by
    have h1 : rand ++ be4 msg.length ++ msg ++ recv
        = (rand ++ be4 msg.length ++ msg) ++ recv := by simp [List.append_assoc]
    have h2 : (rand ++ be4 msg.length ++ msg).length = 20 + msg.length := by
      simp [hrand, be4_length]
      omega
    rw [h1, ← h2]
    exact List.drop_left _ _
  rw [htakemsg, hdroprecv]
  rw [if_pos rfl]

theorem splitBlocksAux_spec (fuel : Nat) :
    ∀ bs : List Nat, bs.length ≤ fuel → 32 ∣ bs.length →
      (splitBlocksAux 32 fuel bs).flatten = bs ∧
      ∀ b ∈ splitBlocksAux 32 fuel bs, b.length = 32 := by
  induction fuel with
  | zero =>
    intro bs hle hdvd
    match bs with
    | [] => exact ⟨rfl, by intro b hb; simp [splitBlocksAux_nil] at hb⟩
    | x :: xs => simp at hle
  | succ f ih =>
    intro bs hle hdvd
    match bs with
    | [] => exact ⟨rfl, by intro b hb; simp [splitBlocksAux_nil] at hb⟩
    | x :: xs =>
      have hlen32 : 32 ≤ (x :: xs).length := by
        rcases hdvd with ⟨k, hk⟩
        match k with
        | 0 => simp at hk
        | k + 1 => omega
      rw [splitBlocksAux_cons]
      have hdroplen : ((x :: xs).drop 32).length = (x :: xs).length - 32 := by simp
      have hih := ih ((x :: xs).drop 32)
        (by rw [List.length_drop]; simp only [List.length_cons] at hle ⊢; omega)
        (by rw [hdroplen]; exact (Nat.dvd_sub' hdvd ⟨1, rfl⟩))
      constructor
      · simp only [List.flatten_cons, hih.1]
        exact List.take_append_drop 32 (x :: xs)
      · intro b hb
        simp only [List.mem_cons] at hb
        rcases hb with hb | hb
        · rw [hb, List.length_take, List.length_cons]
          simp only [List.length_cons] at hlen32
          omega
        · exact hih.2 b hb

theorem splitBlocks32_spec (bs : List Nat) (hdvd : 32 ∣ bs.length) :
    (splitBlocks32 bs).flatten = bs ∧ ∀ b ∈ splitBlocks32 bs, b.length = 32 :=
  splitBlocksAux_spec bs.length bs le_rfl hdvd

/-- Claim C4 (spec-modelled).  For every plaintext, receiver id, 16-byte
random prefix, 32-byte IV, and abstract keyed block cipher pair (E, D) with
D inverting E on 32-byte blocks, decrypting the encryption of the plaintext
under the same parameters and the same expected receiver id returns exactly
the plaintext. -/
theorem C4_crypto_roundtrip (E D : List Nat → List Nat) (hED : ∀ b, D (E b) = b)
    (hE32 : ∀ b, b.length = 32 → (E b).length = 32)
    (iv rand receiveId plaintext : List Nat) (hiv : iv.length = 32) (hrand : rand.length = 16)
    (hlen : plaintext.length < 4294967296) :
    decryptWecomEncrypted D iv receiveId (encryptWecomPlaintext E iv rand receiveId plaintext)
      = .ok plaintext := by
  rw [encryptWecomPlaintext, decryptWecomEncrypted]
  have hpad := splitBlocks32_spec (pkcs7Pad 32 (rand ++ be4 plaintext.length ++ plaintext ++ receiveId))
    (pkcs7Pad_blocks _)
  have hcblocks := cbcEncryptBlocks_length E hE32 iv hiv _ hpad.2
  rw [splitBlocks32_flatten _ hcblocks]
  rw [cbcDecrypt_cbcEncrypt E D hED iv hiv _ hpad.2 hE32]
  rw [hpad.1, pkcs7Unpad_pad]
  exact parseWecomFrame_roundtrip rand plaintext receiveId hrand hlen

/-- Claim C4 witness: the round trip evaluated with the identity block
cipher at a concrete plaintext, receiver id, IV, and random prefix. -/
theorem C4_crypto_roundtrip_witness :
    decryptWecomEncrypted (fun b => b) (List.replicate 32 0) [3, 4]
      (encryptWecomPlaintext (fun b => b) (List.replicate 32 0) (List.replicate 16 1) [3, 4]
        [7, 8, 9]) = .ok [7, 8, 9] :=
  C4_crypto_roundtrip (fun b => b) (fun b => b) (fun _ => rfl) (fun _ h => h)
    (List.replicate 32 0) (List.replicate 16 1) [3, 4] [7, 8, 9]
    (by simp) (by simp) (by simp)


/-! ## Bot webhook handler (wecom-bot.ts)

The module-level registries (streams, msgidToStreamId, recentEncrypts)
become a BotState of association lists in JS Map insertion order; Map.set
updates in place or appends, Map.delete filters.  The collaborators
(signature verification, decryption + JSON parsing of the plaintext, the
sha256 payload hash, and runtime availability) form a BotEnv.  A request is
handled atomically up to the bounded wait; mutations performed by the
asynchronous reply pipeline during the wait window arrive as explicit
PipelineEvent values.  Responses carry the plaintext reply frame; the
surrounding encryption envelope is the CryptoChannel modelled above.  JS
strings use the empty string as the falsy case of optional fields. -/

/-- JS trim, at the character-list level. -/
def strTrim (s : String) : String :=
  String.mk ((s.data.dropWhile Char.isWhitespace).reverse.dropWhile Char.isWhitespace).reverse

/-- JS toLowerCase, at the character-list level. -/
def strToLower (s : String) : String :=
  String.mk (s.data.map Char.toLower)

/-- Map.get on an insertion-ordered association list: first matching key. -/
def alistLookup {α : Type} : List (String × α) → String → Option α
  | [], _ => none
  | p :: ps, k => if p.1 = k then some p.2 else alistLookup ps k

/-- Map.set: update in place when the key exists, else append. -/
def alistSet {α : Type} (l : List (String × α)) (k : String) (v : α) : List (String × α) :=
  if (alistLookup l k).isSome then l.map (fun p => if p.1 = k then (k, v) else p)
  else l ++ [(k, v)]

/-- Map.delete. -/
def alistRemove {α : Type} (l : List (String × α)) (k : String) : List (String × α) :=
  l.filter (fun p => decide (p.1 ≠ k))

/-- Stable insertion into a sorted list (insertion sort, matching the stable
Array.prototype.sort used to pick eviction victims). -/
def sortedInsert {α : Type} (le : α → α → Bool) (x : α) : List α → List α
  | [] => [x]
  | y :: ys => if le x y then x :: y :: ys else y :: sortedInsert le x ys

/-- Stable sort by repeated insertion. -/
def stableSortBy {α : Type} (le : α → α → Bool) : List α → List α
  | [] => []
  | x :: xs => sortedInsert le x (stableSortBy le xs)

/-- Stream TTL (10 minutes). -/
def STREAM_TTL_MS : Nat := 600000
/-- Stream registry cap. -/
def STREAM_MAX_ENTRIES : Nat := 500
/-- Dedupe TTL (2 minutes). -/
def DEDUPE_TTL_MS : Nat := 120000
/-- Dedupe registry cap. -/
def DEDUPE_MAX_ENTRIES : Nat := 2000

/-- StreamState (wecom-bot.ts). -/
structure MStreamState where
  streamId : String
  msgid : Option String
  responseUrl : Option String
  createdAt : Nat
  updatedAt : Nat
  started : Bool
  finished : Bool
  error : Option String
  content : String
  deriving DecidableEq, Repr

/-- A recentEncrypts entry: timestamp and associated stream id. -/
structure DedupeEntry where
  ts : Nat
  streamId : Option String
  deriving DecidableEq, Repr

/-- The module-level mutable registries of wecom-bot.ts. -/
structure BotState where
  streams : List (String × MStreamState)
  msgidToStreamId : List (String × String)
  recentEncrypts : List (String × DedupeEntry)
  deriving DecidableEq, Repr

/-- Shallow embedding of pruneStreams: TTL-filter streams, drop msgid
mappings to dead streams, TTL-filter dedupe entries, then cap both tables by
deleting the oldest entries (selected through a stable sort of a copy, so
the surviving insertion order is unchanged). -/
def pruneStreams (st : BotState) (now : Nat) : BotState :=
  let streams1 := st.streams.filter (fun p => decide (now - STREAM_TTL_MS ≤ p.2.updatedAt))
  let msgid1 := st.msgidToStreamId.filter (fun p => (alistLookup streams1 p.2).isSome)
  let ded1 := st.recentEncrypts.filter (fun p => decide (now - DEDUPE_TTL_MS ≤ p.2.ts))
  let streams2 :=
    if STREAM_MAX_ENTRIES < streams1.length then
      let victims := ((stableSortBy (fun a b => a.2.updatedAt ≤ b.2.updatedAt) streams1).take
        (streams1.length - STREAM_MAX_ENTRIES)).map Prod.fst
      streams1.filter (fun p => decide (¬ victims.contains p.1))
    else streams1
  let ded2 :=
    if DEDUPE_MAX_ENTRIES < ded1.length then
      let victims := ((stableSortBy (fun a b => a.2.ts ≤ b.2.ts) ded1).take
        (ded1.length - DEDUPE_MAX_ENTRIES)).map Prod.fst
      ded1.filter (fun p => decide (¬ victims.contains p.1))
    else ded1
  ⟨streams2, msgid1, ded2⟩

/-- A decrypted inbound bot message, reduced to the fields the handler
reads; empty strings are the falsy/absent cases. -/
structure WecomInboundMsg where
  msgtype : String
  msgid : String
  streamRefId : String
  eventtype : String
  responseUrl : Option String
  deriving DecidableEq, Repr

/-- The per-account fields the bot handler reads; empty strings are
missing credentials. -/
structure WecomAccount where
  mode : String
  configured : Bool
  token : String
  encodingAESKey : String
  receiveId : String
  welcomeText : String
  deriving DecidableEq, Repr

/-- shouldHandleBot (wecom-bot.ts). -/
def shouldHandleBot (account : WecomAccount) : Bool :=
  account.mode = "bot" || account.mode = "both"

/-- The collaborators of the bot handler: signature verification over
(token, timestamp, nonce, encrypt payload, signature), decryption plus JSON
parsing of the plaintext (decryptBotEncrypted and parseWecomPlainMessage
combined, failing on tampered ciphertext), the sha256 hex hash of the raw
encrypt payload, and whether the plugin runtime is available. -/
structure BotEnv where
  verify : String → String → String → String → String → Bool
  decryptParse : WecomAccount → String → Except String WecomInboundMsg
  hash : String → String
  coreReady : Bool

/-- The body of a POST request after readJsonBody: oversized, unparsable,
or parsed with the extracted encrypt field (empty when absent). -/
inductive PostBody where
  | failed (tooLarge : Bool)
  | parsed (encrypt : String)
  deriving DecidableEq, Repr

/-- The query fields of a webhook request (after resolveSignatureParam). -/
structure PostRequest where
  timestamp : String
  nonce : String
  signature : String
  body : PostBody
  deriving DecidableEq, Repr

/-- Plaintext reply frames carried inside the encrypted JSON response. -/
inductive ReplyPlain where
  | stream (id : String) (finish : Bool) (content : String)
  | text (content : String)
  | empty
  deriving DecidableEq, Repr

/-- buildStreamPlaceholderReply (wecom-bot.ts): a stream frame with
finish=false and the fixed thinking placeholder text. -/
def buildStreamPlaceholderReply (streamId : String) : ReplyPlain :=
  .stream streamId false "🤔思考中..."

/-- buildStreamReplyFromState (wecom-bot.ts): a stream frame carrying the
truncated accumulated content and the finished flag. -/
def buildStreamReplyFromState (state : MStreamState) : ReplyPlain :=
  .stream state.streamId state.finished (truncateUtf8Bytes state.content STREAM_MAX_BYTES)

/-- An HTTP response written by the handler: either a plain status+body, or
a 200 JSON body holding the encrypted reply frame (buildEncryptedJsonReply
applied to the plaintext frame, echoing timestamp and nonce). -/
inductive BotHttpResponse where
  | plain (status : Nat) (body : String)
  | jsonEncrypted (reply : ReplyPlain) (timestamp nonce : String)
  deriving DecidableEq, Repr

/-- Observable outcome of one webhook invocation. -/
structure BotHandlerResult where
  state : BotState
  handled : Bool
  response : Option BotHttpResponse
  decrypted : Bool
  pipelineInvoked : Bool
  createdStreamId : Option String
  deriving DecidableEq, Repr

/-- Mutations the asynchronous reply pipeline applies to a stream: a
delivered text fragment (the deliver callback), normal completion, or the
catch handler recording a failure. -/
inductive PipelineEvent where
  | deliverText (streamId : String) (text : String) (now : Nat)
  | finish (streamId : String) (now : Nat)
  | fail (streamId : String) (message : String) (now : Nat)
  deriving DecidableEq, Repr

/-- Apply one pipeline event to the stream table, following the deliver
callback text path, the post-dispatch finish, and the catch handler of
startAgentForStream. -/
def applyPipelineEvent (streams : List (String × MStreamState)) :
    PipelineEvent → List (String × MStreamState)
  | .deliverText sid text now =>
    match alistLookup streams sid with
    | none => streams
    | some current =>
      let nextText := if current.content ≠ "" then strTrim (current.content ++ "\n\n" ++ text)
        else strTrim text
      alistSet streams sid
        { current with content := truncateUtf8Bytes nextText STREAM_MAX_BYTES, updatedAt := now }
  | .finish sid now =>
    match alistLookup streams sid with
    | none => streams
    | some current => alistSet streams sid { current with finished := true, updatedAt := now }
  | .fail sid message now =>
    match alistLookup streams sid with
    | none => streams
    | some current =>
      alistSet streams sid
        { current with
            error := some message,
            content := if current.content = "" then "Error: " ++ message else current.content,
            finished := true,
            updatedAt := now }

/-- Outcome of declining a request: not handled, nothing written. -/
def botNotHandled (st : BotState) : BotHandlerResult :=
  ⟨st, false, none, false, false, none⟩

/-- GET verification query fields. -/
structure GetRequest where
  timestamp : String
  nonce : String
  signature : String
  echostr : String
  deriving DecidableEq, Repr

/-- Stage of handleWecomBotWebhook after decryption and JSON parsing:
branch on the message kind (lines 1887-2096 of wecom-bot.ts). -/
def botPostMessage (env : BotEnv) (target : WecomAccount) (req : PostRequest) (encrypt : String)
    (msg : WecomInboundMsg) (st : BotState) (now : Nat) (freshId : String)
    (waitEvents : List PipelineEvent) : BotHandlerResult :=
  let msgtype := strToLower msg.msgtype
  let msgid := msg.msgid
  if msgtype = "stream" then
    let streamId := strTrim msg.streamRefId
    let state := if streamId ≠ "" then alistLookup st.streams streamId else none
    let reply := match state with
      | some s => buildStreamReplyFromState s
      | none => buildStreamReplyFromState
          ⟨if streamId = "" then "unknown" else streamId, none, none, now, now, true, true,
            none, ""⟩
    ⟨st, true, some (.jsonEncrypted reply req.timestamp req.nonce), true, false, none⟩
  else if msgtype ≠ "event" && msgid ≠ "" && (alistLookup st.msgidToStreamId msgid).isSome then
    let streamId := (alistLookup st.msgidToStreamId msgid).getD ""
    ⟨st, true,
      some (.jsonEncrypted (buildStreamPlaceholderReply streamId) req.timestamp req.nonce),
      true, false, none⟩
  else if msgtype = "event" then
    let eventtype := strToLower msg.eventtype
    if eventtype = "template_card_event" then
      if msgid ≠ "" && (alistLookup st.msgidToStreamId msgid).isSome then
        ⟨st, true, some (.jsonEncrypted .empty req.timestamp req.nonce), true, false, none⟩
      else
        let newStream : MStreamState :=
          ⟨freshId, if msgid ≠ "" then some msgid else none, msg.responseUrl.map strTrim,
            now, now, true, false, none, ""⟩
        let streams1 := alistSet st.streams freshId newStream
        let msgidMap := if msgid ≠ "" then alistSet st.msgidToStreamId msgid freshId
          else st.msgidToStreamId
        let ded := alistSet st.recentEncrypts (env.hash encrypt) ⟨now, some freshId⟩
        if env.coreReady then
          ⟨⟨streams1, msgidMap, ded⟩, true,
            some (.jsonEncrypted .empty req.timestamp req.nonce), true, true, some freshId⟩
        else
          let streams2 := alistSet streams1 freshId
            { newStream with finished := true, updatedAt := now }
          ⟨⟨streams2, msgidMap, ded⟩, true,
            some (.jsonEncrypted .empty req.timestamp req.nonce), true, false, some freshId⟩
    else if eventtype = "enter_chat" then
      let welcome := strTrim target.welcomeText
      let reply := if welcome ≠ "" then ReplyPlain.text welcome else ReplyPlain.empty
      ⟨st, true, some (.jsonEncrypted reply req.timestamp req.nonce), true, false, none⟩
    else
      ⟨st, true, some (.jsonEncrypted .empty req.timestamp req.nonce), true, false, none⟩
  else
    let newStream : MStreamState :=
      ⟨freshId, if msgid ≠ "" then some msgid else none, msg.responseUrl.map strTrim,
        now, now, false, false, none, ""⟩
    let streams1 := alistSet st.streams freshId newStream
    let msgidMap := if msgid ≠ "" then alistSet st.msgidToStreamId msgid freshId
      else st.msgidToStreamId
    let ded := alistSet st.recentEncrypts (env.hash encrypt) ⟨now, some freshId⟩
    let invoked := env.coreReady
    let streams2 := if env.coreReady then alistSet streams1 freshId { newStream with started := true }
      else alistSet streams1 freshId { newStream with finished := true, updatedAt := now }
    let streamsW := waitEvents.foldl applyPipelineEvent streams2
    let state? := alistLookup streamsW freshId
    let reply := match state? with
      | some s =>
        if strTrim s.content ≠ "" || s.error.isSome then buildStreamReplyFromState s
        else buildStreamPlaceholderReply freshId
      | none => buildStreamPlaceholderReply freshId
    ⟨⟨streamsW, msgidMap, ded⟩, true, some (.jsonEncrypted reply req.timestamp req.nonce),
      true, invoked, some freshId⟩

/-- Stage of handleWecomBotWebhook that decrypts and parses the envelope
(lines 1874-1884): a failure is answered with 400. -/
def botPostDecrypt (env : BotEnv) (target : WecomAccount) (req : PostRequest) (encrypt : String)
    (st : BotState) (now : Nat) (freshId : String) (waitEvents : List PipelineEvent) :
    BotHandlerResult :=
  match env.decryptParse target encrypt with
  | .error m =>
    ⟨st, true, some (.plain 400 (if m = "" then "decrypt failed" else m)), true, false, none⟩
  | .ok msg => botPostMessage env target req encrypt msg st now freshId waitEvents

/-- Stage of handleWecomBotWebhook performing the dedupe check before any
decryption (lines 1852-1872): a fresh-enough entry whose stream is alive is
answered from the stream state (content snapshot when content or error
present, else the placeholder) and its timestamp refreshed; a fresh entry
with a dead stream is dropped and processing continues. -/
def botPostDedupe (env : BotEnv) (target : WecomAccount) (req : PostRequest) (encrypt : String)
    (st : BotState) (now : Nat) (freshId : String) (waitEvents : List PipelineEvent) :
    BotHandlerResult :=
  let encryptHash := env.hash encrypt
  match alistLookup st.recentEncrypts encryptHash with
  | some entry =>
    if now - entry.ts ≤ DEDUPE_TTL_MS then
      let streamId := entry.streamId.getD ""
      let state := if streamId ≠ "" then alistLookup st.streams streamId else none
      match state with
      | some s =>
        let reply := if s.error.isSome || strTrim s.content ≠ "" then buildStreamReplyFromState s
          else buildStreamPlaceholderReply streamId
        ⟨{ st with recentEncrypts :=
            alistSet st.recentEncrypts encryptHash { entry with ts := now } },
          true, some (.jsonEncrypted reply req.timestamp req.nonce), false, false, none⟩
      | none =>
        botPostDecrypt env target req encrypt
          { st with recentEncrypts := alistRemove st.recentEncrypts encryptHash }
          now freshId waitEvents
    else botPostDecrypt env target req encrypt st now freshId waitEvents
  | none => botPostDecrypt env target req encrypt st now freshId waitEvents

/-- Shallow embedding of the POST path of handleWecomBotWebhook
(wecom-bot.ts lines 1748-2096).  The random stream id is freshId; pipeline
mutations arriving during the bounded wait are waitEvents. -/
def handleWecomBotWebhookPost (env : BotEnv) (targets : List WecomAccount) (req : PostRequest)
    (st0 : BotState) (now : Nat) (freshId : String) (waitEvents : List PipelineEvent) :
    BotHandlerResult :=
  let st := pruneStreams st0 now
  let botTargets := targets.filter shouldHandleBot
  if botTargets.isEmpty then botNotHandled st
  else if req.timestamp = "" || req.nonce = "" || req.signature = "" then botNotHandled st
  else match req.body with
    | .failed tooLarge =>
      ⟨st, true,
        some (.plain (if tooLarge then 413 else 400)
          (if tooLarge then "payload too large" else "invalid payload")),
        false, false, none⟩
    | .parsed encrypt =>
      if encrypt = "" then ⟨st, true, some (.plain 400 "missing encrypt"), false, false, none⟩
      else
        match botTargets.find? (fun t =>
            t.token ≠ "" && env.verify t.token req.timestamp req.nonce encrypt req.signature) with
        | none => botNotHandled st
        | some target =>
          if ¬(target.configured && target.token ≠ "" && target.encodingAESKey ≠ "") then
            ⟨st, true, some (.plain 500 "wecom not configured"), false, false, none⟩
          else botPostDedupe env target req encrypt st now freshId waitEvents

/-- Shallow embedding of the GET verification path of handleWecomBotWebhook
(lines 1768-1806), with the decrypted echostr supplied by the decrypt
collaborator. -/
def handleWecomBotWebhookGet (env : BotEnv)
    (decryptEcho : WecomAccount → String → Except String String)
    (targets : List WecomAccount) (req : GetRequest) (st0 : BotState) (now : Nat) :
    BotHandlerResult :=
  let st := pruneStreams st0 now
  let botTargets := targets.filter shouldHandleBot
  if botTargets.isEmpty then botNotHandled st
  else if req.timestamp = "" || req.nonce = "" || req.signature = "" || req.echostr = "" then
    botNotHandled st
  else
    match botTargets.find? (fun t =>
        t.configured && t.token ≠ "" &&
          env.verify t.token req.timestamp req.nonce req.echostr req.signature) with
    | none => botNotHandled st
    | some target =>
      if target.encodingAESKey = "" then botNotHandled st
      else
        match decryptEcho target req.echostr with
        | .ok plain => ⟨st, true, some (.plain 200 plain), true, false, none⟩
        | .error m =>
          ⟨st, true, some (.plain 400 (if m = "" then "decrypt failed" else m)), true, false,
            none⟩


/-- Sample account used by concrete witnesses. -/
def sampleAccount : WecomAccount := ⟨"bot", true, "tok", "aes", "corp", ""⟩

/-- Sample environment used by concrete witnesses: the signature matches
when it literally equals "sig", ciphertext "cipher1" decrypts to a text
message with msgid "m1", ciphertext "cipher2" to the same msgid, and
everything else fails decryption; the payload hash is injective. -/
def sampleEnv : BotEnv where
  verify := fun tok _ _ _ sig => tok = "tok" && sig = "sig"
  decryptParse := fun _ e =>
    if e = "cipher1" then .ok ⟨"text", "m1", "", "", none⟩
    else if e = "cipher2" then .ok ⟨"text", "m1", "", "", none⟩
    else .error "bad"
  hash := fun e => "h:" ++ e
  coreReady := true

/-- Claim C10.  A decrypted inbound message that is not an event, not a
stream refresh, and not a dedupe hit, but whose msgid is already mapped to a
stream, is answered with the placeholder frame referencing the existing
stream id, regardless of that stream's content; the handler neither creates
a stream, nor records a dedupe entry, nor invokes the reply pipeline: the
registries are exactly the pruned input registries. -/
theorem C10_msgid_redelivery (env : BotEnv) (targets : List WecomAccount) (req : PostRequest)
    (st0 : BotState) (now : Nat) (freshId : String) (waitEvents : List PipelineEvent)
    (encrypt : String) (target : WecomAccount) (msg : WecomInboundMsg) (sid : String)
    (hts : req.timestamp ≠ "") (hn : req.nonce ≠ "") (hs : req.signature ≠ "")
    (hbody : req.body = .parsed encrypt) (henc : encrypt ≠ "")
    (hfind : (targets.filter shouldHandleBot).find? (fun t =>
      t.token ≠ "" && env.verify t.token req.timestamp req.nonce encrypt req.signature)
      = some target)
    (hconf : target.configured = true) (htok : target.token ≠ "")
    (haes : target.encodingAESKey ≠ "")
    (hdedupe : alistLookup (pruneStreams st0 now).recentEncrypts (env.hash encrypt) = none)
    (hdecrypt : env.decryptParse target encrypt = .ok msg)
    (hnstream : strToLower msg.msgtype ≠ "stream")
    (hnevent : strToLower msg.msgtype ≠ "event")
    (hmsgid : msg.msgid ≠ "")
    (hmapped : alistLookup (pruneStreams st0 now).msgidToStreamId msg.msgid = some sid) :
    handleWecomBotWebhookPost env targets req st0 now freshId waitEvents =
      ⟨pruneStreams st0 now, true,
        some (.jsonEncrypted (buildStreamPlaceholderReply sid) req.timestamp req.nonce),
        true, false, none⟩ := by
  rw [handleWecomBotWebhookPost]
  have hne : targets.filter shouldHandleBot ≠ [] := by
    intro hnil
    rw [hnil] at hfind
    simp at hfind
  rw [if_neg (by simp [List.isEmpty_iff, hne])]
  rw [if_neg (by simp [hts, hn, hs])]
  rw [hbody]
  simp only
  rw [if_neg (by simp [henc])]
  rw [hfind]
  simp only
  rw [if_neg (by simp [hconf, htok, haes])]
  rw [botPostDedupe]
  simp only [hdedupe]
  rw [botPostDecrypt]
  rw [hdecrypt]
  simp only
  rw [botPostMessage]
  simp only
  rw [if_neg hnstream]
  rw [if_pos (by simp [hnevent, hmsgid, hmapped])]
  simp only [hmapped, Option.getD_some]

/-- Claim C10 witness: ciphertext "cipher2" (different from the recorded
"cipher1") carries msgid "m1", which is mapped to stream "sid1" whose stream
already holds content; the reply is still the placeholder for "sid1" and the
registries are untouched. -/
theorem C10_msgid_redelivery_witness :
    handleWecomBotWebhookPost sampleEnv [sampleAccount] ⟨"1", "2", "sig", .parsed "cipher2"⟩
      ⟨[("sid1", ⟨"sid1", some "m1", none, 1000, 1000, true, false, none, "partial reply"⟩)],
        [("m1", "sid1")], [("h:cipher1", ⟨1000, some "sid1"⟩)]⟩ 2000 "fresh" [] =
      ⟨⟨[("sid1", ⟨"sid1", some "m1", none, 1000, 1000, true, false, none, "partial reply"⟩)],
        [("m1", "sid1")], [("h:cipher1", ⟨1000, some "sid1"⟩)]⟩, true,
        some (.jsonEncrypted (buildStreamPlaceholderReply "sid1") "1" "2"), true, false, none⟩ := by
  have h := C10_msgid_redelivery sampleEnv [sampleAccount] ⟨"1", "2", "sig", .parsed "cipher2"⟩
    ⟨[("sid1", ⟨"sid1", some "m1", none, 1000, 1000, true, false, none, "partial reply"⟩)],
      [("m1", "sid1")], [("h:cipher1", ⟨1000, some "sid1"⟩)]⟩ 2000 "fresh" []
    "cipher2" sampleAccount ⟨"text", "m1", "", "", none⟩ "sid1"
    (by decide) (by decide) (by decide) rfl (by decide) rfl rfl (by decide) (by decide)
    (by decide) rfl (by decide) (by decide) (by decide) (by decide)
  rw [h]
  decide

theorem alistLookup_set_self {α : Type} (l : List (String × α)) (k : String) (v : α) :
    alistLookup (alistSet l k v) k = some v := by
  rw [alistSet]
  split
  · rename_i hsome
    induction l with
    | nil => simp [alistLookup] at hsome
    | cons p ps ih =>
      by_cases hk : p.1 = k
      · simp only [List.map_cons, if_pos hk]
        rw [alistLookup]
        simp
      · simp only [List.map_cons, if_neg hk]
        rw [alistLookup, if_neg hk]
        apply ih
        rw [alistLookup, if_neg hk] at hsome
        exact hsome
  · induction l with
    | nil =>
      rw [List.nil_append, alistLookup]
      simp
    | cons p ps ih =>
      rename_i hnone
      rw [alistLookup] at hnone
      by_cases hk : p.1 = k
      · simp [hk] at hnone
      · rw [List.cons_append, alistLookup, if_neg hk]
        apply ih
        rw [if_neg hk] at hnone
        exact hnone

theorem alistLookup_mapset {α : Type} (l : List (String × α)) (k k2 : String) (v : α)
    (h : k2 ≠ k) :
    alistLookup (l.map (fun p => if p.1 = k then (k, v) else p)) k2 = alistLookup l k2 := by
  induction l with
  | nil => rfl
  | cons p ps ih =>
    by_cases hk : p.1 = k
    · simp only [List.map_cons, if_pos hk]
      rw [alistLookup, alistLookup, if_neg (show ¬((k, v).1 = k2) from fun hc => h hc.symm),
        if_neg (fun hc => h (hk.symm.trans hc).symm)]
      exact ih
    · simp only [List.map_cons, if_neg hk]
      rw [alistLookup, alistLookup]
      by_cases hk2 : p.1 = k2
      · rw [if_pos hk2, if_pos hk2]
      · rw [if_neg hk2, if_neg hk2]
        exact ih

theorem alistLookup_append_single {α : Type} (l : List (String × α)) (k k2 : String) (v : α)
    (h : k2 ≠ k) :
    alistLookup (l ++ [(k, v)]) k2 = alistLookup l k2 := by
  induction l with
  | nil =>
    rw [List.nil_append, alistLookup, alistLookup]
    simp only
    rw [if_neg (fun hc => h hc.symm)]
    rfl
  | cons p ps ih =>
    rw [List.cons_append, alistLookup, alistLookup]
    by_cases hk2 : p.1 = k2
    · rw [if_pos hk2, if_pos hk2]
    · rw [if_neg hk2, if_neg hk2]
      exact ih

theorem alistLookup_set_other {α : Type} (l : List (String × α)) (k k2 : String) (v : α)
    (h : k2 ≠ k) : alistLookup (alistSet l k v) k2 = alistLookup l k2 := by
  rw [alistSet]
  split
  · exact alistLookup_mapset l k k2 v h
  · exact alistLookup_append_single l k k2 v h

/-- The per-request dynamic data of one webhook delivery. -/
structure Delivery where
  timestamp : String
  nonce : String
  signature : String
  now : Nat
  freshId : String
  waitEvents : List PipelineEvent
  eventsBefore : List PipelineEvent
  deriving Repr

/-- The POST request of a delivery carrying the shared ciphertext. -/
def mkPostReq (d : Delivery) (encrypt : String) : PostRequest :=
  ⟨d.timestamp, d.nonce, d.signature, .parsed encrypt⟩

/-- Pipeline mutations occurring between two deliveries touch the stream
table only. -/
def applyEventsBetween (st : BotState) (evs : List PipelineEvent) : BotState :=
  { st with streams := evs.foldl applyPipelineEvent st.streams }

/-- Run a sequence of deliveries of the same ciphertext, interleaved with
the pipeline events preceding each delivery, collecting every handler
outcome. -/
def runDeliveries (env : BotEnv) (targets : List WecomAccount) (encrypt : String) :
    BotState → List Delivery → BotState × List BotHandlerResult
  | st, [] => (st, [])
  | st, d :: ds =>
    let st1 := applyEventsBetween st d.eventsBefore
    let r := handleWecomBotWebhookPost env targets (mkPostReq d encrypt) st1 d.now d.freshId
      d.waitEvents
    let rest := runDeliveries env targets encrypt r.state ds
    (rest.1, r :: rest.2)

/-- A delivery authenticates: all query fields present, some configured
bot-capable account verifies its signature. -/
def DeliveryAuthOk (env : BotEnv) (targets : List WecomAccount) (encrypt : String)
    (d : Delivery) : Prop :=
  d.timestamp ≠ "" ∧ d.nonce ≠ "" ∧ d.signature ≠ "" ∧ encrypt ≠ "" ∧
  ∃ target, (targets.filter shouldHandleBot).find? (fun t =>
      t.token ≠ "" && env.verify t.token d.timestamp d.nonce encrypt d.signature)
      = some target ∧
    target.configured = true ∧ target.token ≠ "" ∧ target.encodingAESKey ≠ ""

/-- The dedupe-hit step of botPostDedupe: a fresh-enough entry whose stream
is alive answers from the stream snapshot (or the placeholder when the
stream holds neither content nor an error), refreshes the entry timestamp,
and neither decrypts, nor creates a stream, nor invokes the pipeline. -/
theorem botPostDedupe_hit (env : BotEnv) (target : WecomAccount) (req : PostRequest)
    (encrypt : String) (st : BotState) (now : Nat) (freshId : String)
    (waitEvents : List PipelineEvent) (entry : DedupeEntry) (sid : String) (s : MStreamState)
    (hentry : alistLookup st.recentEncrypts (env.hash encrypt) = some entry)
    (hts : now - entry.ts ≤ DEDUPE_TTL_MS)
    (hsid : entry.streamId = some sid) (hsidne : sid ≠ "")
    (hstream : alistLookup st.streams sid = some s) :
    botPostDedupe env target req encrypt st now freshId waitEvents =
      ⟨{ st with recentEncrypts :=
          alistSet st.recentEncrypts (env.hash encrypt) ⟨now, entry.streamId⟩ },
        true,
        some (.jsonEncrypted
          (if s.error.isSome || strTrim s.content ≠ "" then buildStreamReplyFromState s
            else buildStreamPlaceholderReply sid)
          req.timestamp req.nonce),
        false, false, none⟩ := by
  rw [botPostDedupe]
  simp only [hentry]
  rw [if_pos hts]
  simp only [hsid, Option.getD_some]
  rw [if_pos hsidne]
  simp only [hstream]

/-- The full handler on a dedupe hit: behind the guards, the behaviour of
botPostDedupe_hit, on the pruned state. -/
theorem handlePost_dedupe_hit (env : BotEnv) (targets : List WecomAccount) (req : PostRequest)
    (st0 : BotState) (now : Nat) (freshId : String) (waitEvents : List PipelineEvent)
    (encrypt : String) (target : WecomAccount) (entry : DedupeEntry) (sid : String)
    (s : MStreamState)
    (hts : req.timestamp ≠ "") (hn : req.nonce ≠ "") (hs : req.signature ≠ "")
    (hbody : req.body = .parsed encrypt) (henc : encrypt ≠ "")
    (hfind : (targets.filter shouldHandleBot).find? (fun t =>
      t.token ≠ "" && env.verify t.token req.timestamp req.nonce encrypt req.signature)
      = some target)
    (hconf : target.configured = true) (htok : target.token ≠ "")
    (haes : target.encodingAESKey ≠ "")
    (hentry : alistLookup (pruneStreams st0 now).recentEncrypts (env.hash encrypt) = some entry)
    (hgap : now - entry.ts ≤ DEDUPE_TTL_MS)
    (hsid : entry.streamId = some sid) (hsidne : sid ≠ "")
    (hstream : alistLookup (pruneStreams st0 now).streams sid = some s) :
    handleWecomBotWebhookPost env targets req st0 now freshId waitEvents =
      ⟨⟨(pruneStreams st0 now).streams, (pruneStreams st0 now).msgidToStreamId,
          alistSet (pruneStreams st0 now).recentEncrypts (env.hash encrypt)
            ⟨now, entry.streamId⟩⟩,
        true,
        some (.jsonEncrypted
          (if s.error.isSome || strTrim s.content ≠ "" then buildStreamReplyFromState s
            else buildStreamPlaceholderReply sid)
          req.timestamp req.nonce),
        false, false, none⟩ := by
  rw [handleWecomBotWebhookPost]
  have hne : targets.filter shouldHandleBot ≠ [] := by
    intro hnil
    rw [hnil] at hfind
    simp at hfind
  rw [if_neg (by simp [List.isEmpty_iff, hne])]
  rw [if_neg (by simp [hts, hn, hs])]
  rw [hbody]
  simp only
  rw [if_neg (by simp [henc])]
  rw [hfind]
  simp only
  rw [if_neg (by simp [hconf, htok, haes])]
  exact botPostDedupe_hit env target req encrypt (pruneStreams st0 now) now freshId waitEvents
    entry sid s hentry hgap hsid hsidne hstream

/-- The full handler on a fresh ordinary message (no dedupe entry, no msgid
mapping, not an event or stream refresh): it decrypts, creates stream
freshId, records the dedupe entry for the ciphertext with the current
timestamp, and invokes the pipeline exactly when the runtime is ready. -/
theorem handlePost_ordinary_fresh (env : BotEnv) (targets : List WecomAccount)
    (req : PostRequest) (st0 : BotState) (now : Nat) (freshId : String)
    (waitEvents : List PipelineEvent) (encrypt : String) (target : WecomAccount)
    (msg : WecomInboundMsg)
    (hts : req.timestamp ≠ "") (hn : req.nonce ≠ "") (hs : req.signature ≠ "")
    (hbody : req.body = .parsed encrypt) (henc : encrypt ≠ "")
    (hfind : (targets.filter shouldHandleBot).find? (fun t =>
      t.token ≠ "" && env.verify t.token req.timestamp req.nonce encrypt req.signature)
      = some target)
    (hconf : target.configured = true) (htok : target.token ≠ "")
    (haes : target.encodingAESKey ≠ "")
    (hdedupe : alistLookup (pruneStreams st0 now).recentEncrypts (env.hash encrypt) = none)
    (hdecrypt : env.decryptParse target encrypt = .ok msg)
    (hnstream : strToLower msg.msgtype ≠ "stream")
    (hnevent : strToLower msg.msgtype ≠ "event")
    (hnomap : msg.msgid = "" ∨
      alistLookup (pruneStreams st0 now).msgidToStreamId msg.msgid = none) :
    (handleWecomBotWebhookPost env targets req st0 now freshId waitEvents).handled = true ∧
    (handleWecomBotWebhookPost env targets req st0 now freshId waitEvents).decrypted = true ∧
    (handleWecomBotWebhookPost env targets req st0 now freshId waitEvents).pipelineInvoked
      = env.coreReady ∧
    (handleWecomBotWebhookPost env targets req st0 now freshId waitEvents).createdStreamId
      = some freshId ∧
    alistLookup
      (handleWecomBotWebhookPost env targets req st0 now freshId waitEvents).state.recentEncrypts
      (env.hash encrypt) = some ⟨now, some freshId⟩ := by
  rw [handleWecomBotWebhookPost]
  have hne : targets.filter shouldHandleBot ≠ [] := by
    intro hnil
    rw [hnil] at hfind
    simp at hfind
  rw [if_neg (by simp [List.isEmpty_iff, hne])]
  rw [if_neg (by simp [hts, hn, hs])]
  rw [hbody]
  simp only
  rw [if_neg (by simp [henc])]
  rw [hfind]
  simp only
  rw [if_neg (by simp [hconf, htok, haes])]
  rw [botPostDedupe]
  simp only [hdedupe]
  rw [botPostDecrypt, hdecrypt]
  simp only
  rw [botPostMessage]
  simp only
  rw [if_neg hnstream]
  rcases hnomap with hmap | hmap
  all_goals rw [if_neg (by simp [hmap])]
  all_goals rw [if_neg hnevent]
  all_goals exact ⟨by trivial, by trivial, by trivial, by trivial,
    by exact alistLookup_set_self _ _ _⟩

/-- The conditions under which a chain of repeat deliveries of the same
ciphertext keeps hitting the dedupe registry: each delivery authenticates,
arrives within the TTL of the (refreshed) entry, the entry survives pruning,
and the associated stream is still alive. -/
def DedupeChainOk (env : BotEnv) (targets : List WecomAccount) (encrypt : String)
    (sid : String) : Nat → BotState → List Delivery → Prop
  | _, _, [] => True
  | tPrev, st, d :: ds =>
    DeliveryAuthOk env targets encrypt d ∧
    alistLookup (pruneStreams (applyEventsBetween st d.eventsBefore) d.now).recentEncrypts
      (env.hash encrypt) = some ⟨tPrev, some sid⟩ ∧
    d.now - tPrev ≤ DEDUPE_TTL_MS ∧
    (∃ s, alistLookup
      (pruneStreams (applyEventsBetween st d.eventsBefore) d.now).streams sid = some s) ∧
    DedupeChainOk env targets encrypt sid d.now
      ⟨(pruneStreams (applyEventsBetween st d.eventsBefore) d.now).streams,
        (pruneStreams (applyEventsBetween st d.eventsBefore) d.now).msgidToStreamId,
        alistSet
          (pruneStreams (applyEventsBetween st d.eventsBefore) d.now).recentEncrypts
          (env.hash encrypt) ⟨d.now, some sid⟩⟩ ds

theorem runDeliveries_dedupe_chain (env : BotEnv) (targets : List WecomAccount)
    (encrypt sid : String) (hsidne : sid ≠ "") :
    ∀ (ds : List Delivery) (st : BotState) (tPrev : Nat),
      DedupeChainOk env targets encrypt sid tPrev st ds →
      alistLookup st.recentEncrypts (env.hash encrypt) = some ⟨tPrev, some sid⟩ →
      (∀ r ∈ (runDeliveries env targets encrypt st ds).2,
        r.handled = true ∧ r.decrypted = false ∧ r.pipelineInvoked = false ∧
        r.createdStreamId = none ∧
        ∃ s t n, r.response = some (.jsonEncrypted
          (if s.error.isSome || strTrim s.content ≠ "" then buildStreamReplyFromState s
            else buildStreamPlaceholderReply sid) t n)) ∧
      alistLookup (runDeliveries env targets encrypt st ds).1.recentEncrypts
        (env.hash encrypt) = some ⟨(ds.getLast?.map Delivery.now).getD tPrev, some sid⟩ := by
  intro ds
  induction ds with
  | nil =>
    intro st tPrev hchain hinv
    rw [runDeliveries]
    exact ⟨by intro r hr; simp at hr, by simpa using hinv⟩
  | cons d ds ih =>
    intro st tPrev hchain hinv
    obtain ⟨⟨hts, hn, hs, henc, target, hfind, hconf, htok, haes⟩, hentry, hgap, ⟨s, hstream⟩,
      hchain2⟩ := hchain
    rw [runDeliveries]
    simp only
    have hstep := handlePost_dedupe_hit env targets (mkPostReq d encrypt)
      (applyEventsBetween st d.eventsBefore) d.now d.freshId d.waitEvents encrypt target
      ⟨tPrev, some sid⟩ sid s hts hn hs rfl henc hfind hconf htok haes hentry hgap rfl hsidne
      hstream
    rw [hstep]
    simp only
    have hinv2 := alistLookup_set_self
      (pruneStreams (applyEventsBetween st d.eventsBefore) d.now).recentEncrypts
      (env.hash encrypt) (⟨d.now, some sid⟩ : DedupeEntry)
    have hih := ih _ d.now hchain2 hinv2
    constructor
    · intro r hr
      simp only [List.mem_cons] at hr
      rcases hr with hr | hr
      · subst hr
        refine ⟨rfl, rfl, rfl, rfl, s, (mkPostReq d encrypt).timestamp,
          (mkPostReq d encrypt).nonce, rfl⟩
      · exact hih.1 r hr
    · have hlast : (((d :: ds).getLast?).map Delivery.now).getD tPrev
          = ((ds.getLast?.map Delivery.now).getD d.now) := by
        cases ds with
        | nil => simp
        | cons d2 ds2 =>
          rw [List.getLast?_cons_cons]
          cases hgl : (d2 :: ds2).getLast? with
          | none => simp [List.getLast?_eq_none_iff] at hgl
          | some x => simp
      rw [hlast]
      exact hih.2

/-- Claim C1.  A valid fresh ordinary delivery (no dedupe entry, unmapped
msgid) invokes the reply pipeline once and records a dedupe entry for its
ciphertext; every later delivery of the byte-identical ciphertext that
arrives within the dedupe TTL of the previous one, while the associated
stream and the entry survive pruning, is answered without decrypting again
from the stream's current state (its content/finished snapshot when content
is non-blank or an error is set, else the placeholder frame), refreshes the
entry timestamp to its arrival time, creates no stream, and never re-invokes
the pipeline: after the whole run the pipeline has been invoked exactly
once. -/
theorem C1_dedupe_idempotence (env : BotEnv) (targets : List WecomAccount) (st0 : BotState)
    (encrypt : String) (d0 : Delivery) (ds : List Delivery) (target : WecomAccount)
    (msg : WecomInboundMsg)
    (hcore : env.coreReady = true)
    (hts : d0.timestamp ≠ "") (hn : d0.nonce ≠ "") (hs : d0.signature ≠ "")
    (henc : encrypt ≠ "") (hfresh : d0.freshId ≠ "")
    (hfind : (targets.filter shouldHandleBot).find? (fun t =>
      t.token ≠ "" && env.verify t.token d0.timestamp d0.nonce encrypt d0.signature)
      = some target)
    (hconf : target.configured = true) (htok : target.token ≠ "")
    (haes : target.encodingAESKey ≠ "")
    (hdedupe : alistLookup
      (pruneStreams (applyEventsBetween st0 d0.eventsBefore) d0.now).recentEncrypts
      (env.hash encrypt) = none)
    (hdecrypt : env.decryptParse target encrypt = .ok msg)
    (hnstream : strToLower msg.msgtype ≠ "stream")
    (hnevent : strToLower msg.msgtype ≠ "event")
    (hnomap : msg.msgid = "" ∨ alistLookup
      (pruneStreams (applyEventsBetween st0 d0.eventsBefore) d0.now).msgidToStreamId
      msg.msgid = none)
    (hchain : DedupeChainOk env targets encrypt d0.freshId d0.now
      (handleWecomBotWebhookPost env targets (mkPostReq d0 encrypt)
        (applyEventsBetween st0 d0.eventsBefore) d0.now d0.freshId d0.waitEvents).state ds) :
    (runDeliveries env targets encrypt st0 (d0 :: ds)).2.countP
        (fun r => r.pipelineInvoked) = 1 ∧
    (∃ r0 rest, (runDeliveries env targets encrypt st0 (d0 :: ds)).2 = r0 :: rest ∧
      r0.pipelineInvoked = true ∧ r0.decrypted = true ∧
      r0.createdStreamId = some d0.freshId ∧
      ∀ r ∈ rest, r.handled = true ∧ r.decrypted = false ∧ r.pipelineInvoked = false ∧
        r.createdStreamId = none ∧
        ∃ s t n, r.response = some (.jsonEncrypted
          (if s.error.isSome || strTrim s.content ≠ "" then buildStreamReplyFromState s
            else buildStreamPlaceholderReply d0.freshId) t n)) ∧
    alistLookup (runDeliveries env targets encrypt st0 (d0 :: ds)).1.recentEncrypts
      (env.hash encrypt) = some ⟨(ds.getLast?.map Delivery.now).getD d0.now, some d0.freshId⟩ := by
  have hfirst := handlePost_ordinary_fresh env targets (mkPostReq d0 encrypt)
    (applyEventsBetween st0 d0.eventsBefore) d0.now d0.freshId d0.waitEvents encrypt target msg
    hts hn hs rfl henc hfind hconf htok haes hdedupe hdecrypt hnstream hnevent hnomap
  obtain ⟨hh, hd, hp, hc, hinv⟩ := hfirst
  have hrest := runDeliveries_dedupe_chain env targets encrypt d0.freshId hfresh ds
    (handleWecomBotWebhookPost env targets (mkPostReq d0 encrypt)
      (applyEventsBetween st0 d0.eventsBefore) d0.now d0.freshId d0.waitEvents).state d0.now
    hchain hinv
  rw [runDeliveries]
  simp only
  refine ⟨?_, ?_, ?_⟩
  · rw [List.countP_cons]
    have hz : (runDeliveries env targets encrypt
        (handleWecomBotWebhookPost env targets (mkPostReq d0 encrypt)
          (applyEventsBetween st0 d0.eventsBefore) d0.now d0.freshId d0.waitEvents).state
        ds).2.countP (fun r => r.pipelineInvoked) = 0 := by
      rw [List.countP_eq_zero]
      intro r hr
      have := (hrest.1 r hr).2.2.1
      simp [this]
    rw [hz, hp, hcore]
    simp
  · refine ⟨_, _, rfl, by rw [hp, hcore], hd, hc, hrest.1⟩
  · exact hrest.2

/-- Claim C1 witness: two deliveries of ciphertext "cipher1" 49 seconds
apart; the second is served from the dedupe registry, the pipeline runs
once, and the entry timestamp is refreshed to the second arrival. -/
theorem C1_dedupe_idempotence_witness :
    (runDeliveries sampleEnv [sampleAccount] "cipher1" ⟨[], [], []⟩
        [⟨"1", "2", "sig", 1000, "sid1", [], []⟩,
          ⟨"7", "8", "sig", 50000, "sid2", [], []⟩]).2.countP
      (fun r => r.pipelineInvoked) = 1 ∧
    (∃ r0 rest, (runDeliveries sampleEnv [sampleAccount] "cipher1" ⟨[], [], []⟩
        [⟨"1", "2", "sig", 1000, "sid1", [], []⟩,
          ⟨"7", "8", "sig", 50000, "sid2", [], []⟩]).2 = r0 :: rest ∧
      r0.pipelineInvoked = true ∧ r0.decrypted = true ∧
      r0.createdStreamId = some "sid1" ∧
      ∀ r ∈ rest, r.handled = true ∧ r.decrypted = false ∧ r.pipelineInvoked = false ∧
        r.createdStreamId = none ∧
        ∃ s t n, r.response = some (.jsonEncrypted
          (if s.error.isSome || strTrim s.content ≠ "" then buildStreamReplyFromState s
            else buildStreamPlaceholderReply "sid1") t n)) ∧
    alistLookup (runDeliveries sampleEnv [sampleAccount] "cipher1" ⟨[], [], []⟩
        [⟨"1", "2", "sig", 1000, "sid1", [], []⟩,
          ⟨"7", "8", "sig", 50000, "sid2", [], []⟩]).1.recentEncrypts
      (sampleEnv.hash "cipher1") = some ⟨50000, some "sid1"⟩ := by
  have h := C1_dedupe_idempotence sampleEnv [sampleAccount] ⟨[], [], []⟩ "cipher1"
    ⟨"1", "2", "sig", 1000, "sid1", [], []⟩ [⟨"7", "8", "sig", 50000, "sid2", [], []⟩]
    sampleAccount ⟨"text", "m1", "", "", none⟩
    rfl (by decide) (by decide) (by decide) (by decide) (by decide)
    rfl rfl (by decide) (by decide) (by decide) rfl (by decide) (by decide)
    (Or.inr (by decide))
    ⟨⟨by decide, by decide, by decide, by decide, sampleAccount, rfl, rfl, by decide,
        by decide⟩,
      by decide, by decide,
      ⟨⟨"sid1", some "m1", none, 1000, 1000, true, false, none, ""⟩, by decide⟩, trivial⟩
  exact h


/-- The poll exit test of waitForStreamContent: a missing stream, an error,
the finished flag, or non-blank content stops the wait. -/
def waitTickDone (s? : Option MStreamState) : Bool :=
  match s? with
  | none => true
  | some s => s.error.isSome || s.finished || strTrim s.content ≠ ""

/-- The 25ms polling loop of waitForStreamContent over the time-indexed
stream state; returns the elapsed time at resolution.  Fuel-indexed; fuel
maxWaitMs / 25 + 1 always suffices. -/
def waitForStreamContentAux (getState : Nat → Option MStreamState) (maxWaitMs : Nat) :
    Nat → Nat → Nat
  | 0, t => t
  | fuel + 1, t =>
    if waitTickDone (getState t) then t
    else if maxWaitMs ≤ t then t
    else waitForStreamContentAux getState maxWaitMs fuel (t + 25)

/-- Shallow embedding of waitForStreamContent (wecom-bot.ts): poll the
stream every 25ms until it has an error, is finished, has non-blank
content, disappeared, or the bound elapsed; returns the elapsed time. -/
def waitForStreamContent (getState : Nat → Option MStreamState) (maxWaitMs : Nat) : Nat :=
  if maxWaitMs = 0 then 0
  else waitForStreamContentAux getState maxWaitMs (maxWaitMs / 25 + 1) 0

theorem waitForStreamContentAux_bound (getState : Nat → Option MStreamState)
    (maxWaitMs : Nat) (hm : 25 ∣ maxWaitMs) :
    ∀ fuel t, t ≤ maxWaitMs → 25 ∣ t → maxWaitMs ≤ t + 25 * fuel →
      waitForStreamContentAux getState maxWaitMs fuel t ≤ maxWaitMs ∧
      (waitTickDone (getState (waitForStreamContentAux getState maxWaitMs fuel t)) = true ∨
        waitForStreamContentAux getState maxWaitMs fuel t = maxWaitMs) := by
  intro fuel
  induction fuel with
  | zero =>
    intro t ht _ hbound
    rw [waitForStreamContentAux]
    exact ⟨ht, Or.inr (by omega)⟩
  | succ f ih =>
    intro t ht hdvd hbound
    rw [waitForStreamContentAux]
    by_cases hdone : waitTickDone (getState t) = true
    · rw [if_pos hdone]
      exact ⟨ht, Or.inl hdone⟩
    · rw [if_neg hdone]
      by_cases hend : maxWaitMs ≤ t
      · rw [if_pos hend]
        exact ⟨ht, Or.inr (by omega)⟩
      · rw [if_neg hend]
        exact ih (t + 25) (by omega) (by omega) (by omega)

/-- The full handler on a fresh ordinary message, as an explicit record:
creation of the PENDING stream, msgid mapping, dedupe record, start flag or
immediate finish depending on runtime availability, application of the
pipeline events of the wait window, and the initial reply selected from the
post-wait snapshot. -/
theorem handlePost_ordinary_full (env : BotEnv) (targets : List WecomAccount)
    (req : PostRequest) (st0 : BotState) (now : Nat) (freshId : String)
    (waitEvents : List PipelineEvent) (encrypt : String) (target : WecomAccount)
    (msg : WecomInboundMsg)
    (hts : req.timestamp ≠ "") (hn : req.nonce ≠ "") (hs : req.signature ≠ "")
    (hbody : req.body = .parsed encrypt) (henc : encrypt ≠ "")
    (hfind : (targets.filter shouldHandleBot).find? (fun t =>
      t.token ≠ "" && env.verify t.token req.timestamp req.nonce encrypt req.signature)
      = some target)
    (hconf : target.configured = true) (htok : target.token ≠ "")
    (haes : target.encodingAESKey ≠ "")
    (hdedupe : alistLookup (pruneStreams st0 now).recentEncrypts (env.hash encrypt) = none)
    (hdecrypt : env.decryptParse target encrypt = .ok msg)
    (hnstream : strToLower msg.msgtype ≠ "stream")
    (hnevent : strToLower msg.msgtype ≠ "event")
    (hnomap : msg.msgid = "" ∨
      alistLookup (pruneStreams st0 now).msgidToStreamId msg.msgid = none) :
    handleWecomBotWebhookPost env targets req st0 now freshId waitEvents =
      (let stp := pruneStreams st0 now
       let newStream : MStreamState :=
         ⟨freshId, if msg.msgid ≠ "" then some msg.msgid else none, msg.responseUrl.map strTrim,
           now, now, false, false, none, ""⟩
       let streams1 := alistSet stp.streams freshId newStream
       let msgidMap := if msg.msgid ≠ "" then alistSet stp.msgidToStreamId msg.msgid freshId
         else stp.msgidToStreamId
       let ded := alistSet stp.recentEncrypts (env.hash encrypt) ⟨now, some freshId⟩
       let streams2 := if env.coreReady then
           alistSet streams1 freshId { newStream with started := true }
         else alistSet streams1 freshId { newStream with finished := true, updatedAt := now }
       let streamsW := waitEvents.foldl applyPipelineEvent streams2
       let reply := match alistLookup streamsW freshId with
         | some s =>
           if strTrim s.content ≠ "" || s.error.isSome then buildStreamReplyFromState s
           else buildStreamPlaceholderReply freshId
         | none => buildStreamPlaceholderReply freshId
       ⟨⟨streamsW, msgidMap, ded⟩, true,
         some (.jsonEncrypted reply req.timestamp req.nonce), true, env.coreReady,
         some freshId⟩) := by
  rw [handleWecomBotWebhookPost]
  have hne : targets.filter shouldHandleBot ≠ [] := by
    intro hnil
    rw [hnil] at hfind
    simp at hfind
  rw [if_neg (by simp [List.isEmpty_iff, hne])]
  rw [if_neg (by simp [hts, hn, hs])]
  rw [hbody]
  simp only
  rw [if_neg (by simp [henc])]
  rw [hfind]
  simp only
  rw [if_neg (by simp [hconf, htok, haes])]
  rw [botPostDedupe]
  simp only [hdedupe]
  rw [botPostDecrypt, hdecrypt]
  simp only
  rw [botPostMessage]
  simp only
  rw [if_neg hnstream]
  rcases hnomap with hmap | hmap
  all_goals rw [if_neg (by simp [hmap])]
  all_goals rw [if_neg hnevent]

/-- Claim C6.  The dispatcher waits at most 800ms for the stream to gain an
error, the finished flag, or non-blank content, polling every 25ms (the wait
resolves either because the poll test fired or because the full 800ms
elapsed); the initial HTTP reply of a fresh ordinary message is built from
the post-wait snapshot when its content is non-blank or an error is
recorded and is the placeholder frame with finish=false otherwise; and the
timeout does not cancel the pipeline: the pipeline is invoked (when the
runtime is ready) and every mutation it made during the wait window is
retained in the stream table, independently of which reply was chosen. -/
theorem C6_initial_reply_window :
    (∀ getState : Nat → Option MStreamState,
      waitForStreamContent getState 800 ≤ 800 ∧
      (waitTickDone (getState (waitForStreamContent getState 800)) = true ∨
        waitForStreamContent getState 800 = 800)) ∧
    (∀ (env : BotEnv) (targets : List WecomAccount) (req : PostRequest) (st0 : BotState)
      (now : Nat) (freshId : String) (waitEvents : List PipelineEvent) (encrypt : String)
      (target : WecomAccount) (msg : WecomInboundMsg),
      req.timestamp ≠ "" → req.nonce ≠ "" → req.signature ≠ "" →
      req.body = .parsed encrypt → encrypt ≠ "" →
      (targets.filter shouldHandleBot).find? (fun t =>
        t.token ≠ "" && env.verify t.token req.timestamp req.nonce encrypt req.signature)
        = some target →
      target.configured = true → target.token ≠ "" → target.encodingAESKey ≠ "" →
      alistLookup (pruneStreams st0 now).recentEncrypts (env.hash encrypt) = none →
      env.decryptParse target encrypt = .ok msg →
      strToLower msg.msgtype ≠ "stream" → strToLower msg.msgtype ≠ "event" →
      (msg.msgid = "" ∨
        alistLookup (pruneStreams st0 now).msgidToStreamId msg.msgid = none) →
      ((handleWecomBotWebhookPost env targets req st0 now freshId waitEvents).pipelineInvoked
          = env.coreReady ∧
        (∀ s, alistLookup
            (handleWecomBotWebhookPost env targets req st0 now freshId waitEvents).state.streams
            freshId = some s →
          (handleWecomBotWebhookPost env targets req st0 now freshId waitEvents).response
            = some (.jsonEncrypted
              (if strTrim s.content ≠ "" || s.error.isSome then buildStreamReplyFromState s
                else buildStreamPlaceholderReply freshId) req.timestamp req.nonce)) ∧
        buildStreamPlaceholderReply freshId = .stream freshId false "🤔思考中...")) := by
  constructor
  · intro getState
    rw [waitForStreamContent, if_neg (by omega)]
    exact waitForStreamContentAux_bound getState 800 (by omega) (800 / 25 + 1) 0 (by omega)
      (by omega) (by omega)
  · intro env targets req st0 now freshId waitEvents encrypt target msg
      hts hn hs hbody henc hfind hconf htok haes hdedupe hdecrypt hnstream hnevent hnomap
    have hfull := handlePost_ordinary_full env targets req st0 now freshId waitEvents encrypt
      target msg hts hn hs hbody henc hfind hconf htok haes hdedupe hdecrypt hnstream hnevent
      hnomap
    rw [hfull]
    simp only
    refine ⟨by trivial, ?_, by trivial⟩
    intro s hsl
    rw [hsl]

/-- Claim C6 witness: a stream that never produces content resolves the
wait within the 800ms bound, and a concrete fresh delivery whose pipeline
appended "hello" during the wait window is answered with that content and
finish=false. -/
theorem C6_initial_reply_window_witness :
    waitForStreamContent (fun _ => none) 800 ≤ 800 ∧
    (handleWecomBotWebhookPost sampleEnv [sampleAccount] ⟨"1", "2", "sig", .parsed "cipher1"⟩
        ⟨[], [], []⟩ 1000 "sid1" [.deliverText "sid1" "hello" 1100]).response
      = some (.jsonEncrypted (.stream "sid1" false "hello") "1" "2") := by
  constructor
  · exact ((C6_initial_reply_window).1 (fun _ => none)).1
  · have h := (C6_initial_reply_window).2 sampleEnv [sampleAccount]
      ⟨"1", "2", "sig", .parsed "cipher1"⟩ ⟨[], [], []⟩ 1000 "sid1"
      [.deliverText "sid1" "hello" 1100] "cipher1" sampleAccount ⟨"text", "m1", "", "", none⟩
      (by decide) (by decide) (by decide) rfl (by decide) rfl rfl (by decide) (by decide)
      (by decide) rfl (by decide) (by decide) (Or.inr (by decide))
    have h2 := h.2.1 ⟨"sid1", some "m1", none, 1000, 1100, true, false, none, "hello"⟩
      (by decide)
    rw [h2]
    decide


/-! ## App webhook handler (wecom-app.ts)

For the XML (ACK/push) variant the claims concern the order of observable
effects, so the handler is modelled as producing an ordered action trace:
HTTP responses written, the decryption attempt, error logs, and the start
of asynchronous processing.  The asynchronous phase outcomes are supplied
by the environment. -/

/-- The per-account fields the app handler reads. -/
structure AppAccount where
  mode : String
  callbackToken : String
  callbackAesKey : String
  corpId : String
  deriving DecidableEq, Repr

/-- shouldHandleApp (wecom-app.ts). -/
def shouldHandleApp (a : AppAccount) : Bool :=
  a.mode = "app" || a.mode = "both"

/-- Observable effects of one app webhook invocation, in order. -/
inductive AppAction where
  | respond (status : Nat) (body : String)
  | decryptAttempt
  | logError (message : String)
  | processStarted
  deriving DecidableEq, Repr

/-- Whether an action writes to the HTTP response. -/
def isRespond : AppAction → Bool
  | .respond _ _ => true
  | _ => false

/-- The request body of the app POST: oversized, or the raw XML text. -/
inductive AppBody where
  | tooLarge
  | text (raw : String)
  deriving DecidableEq, Repr

/-- The app POST request. -/
structure AppRequest where
  timestamp : String
  nonce : String
  signature : String
  body : AppBody
  deriving DecidableEq, Repr

/-- Does the trimmed raw body start with the XML opening angle bracket? -/
def xmlShaped (raw : String) : Bool :=
  match (strTrim raw).data with
  | [] => false
  | c :: _ => c = '<'

/-- Collaborators of the app handler: signature verification, outer XML
parsing (yielding the Encrypt field, empty when absent), decryption of the
envelope, parsing of the decrypted XML, and the resolution of the
asynchronous processAppMessage call. -/
structure AppEnv where
  verify : String → String → String → String → String → Bool
  parseXml : String → Except String String
  decryptXml : AppAccount → String → Except String String
  parseInnerXml : String → Except String Unit
  processOutcome : Except String Unit

/-- Shallow embedding of the POST path of handleWecomAppWebhook
(wecom-app.ts lines 1395-1486): declining returns false with no actions;
once an account verifies and is configured, the literal 200 "success" ack is
written first, then the envelope is decrypted and processed, every failure
being logged only. -/
def handleWecomAppWebhookPost (env : AppEnv) (targets : List AppAccount) (req : AppRequest) :
    Bool × List AppAction :=
  if req.timestamp = "" || req.nonce = "" || req.signature = "" then (false, [])
  else match req.body with
    | .tooLarge => (true, [.respond 413 "payload too large"])
    | .text raw =>
      if ¬ xmlShaped raw then (false, [])
      else match env.parseXml raw with
        | .error _ => (false, [])
        | .ok encrypt =>
          if encrypt = "" then (true, [.respond 400 "Missing Encrypt"])
          else
            match targets.find? (fun a => shouldHandleApp a && a.callbackToken ≠ "" &&
                a.callbackAesKey ≠ "" &&
                env.verify a.callbackToken req.timestamp req.nonce encrypt req.signature) with
            | none => (false, [])
            | some target =>
              if target.callbackAesKey = "" || target.callbackToken = "" then
                (true, [.respond 500 "wecom app not configured"])
              else
                let ack := AppAction.respond 200 "success"
                match env.decryptXml target encrypt with
                | .error m => (true, [ack, .decryptAttempt, .logError m])
                | .ok plain =>
                  match env.parseInnerXml plain with
                  | .error m => (true, [ack, .decryptAttempt, .logError m])
                  | .ok _ =>
                    match env.processOutcome with
                    | .ok _ => (true, [ack, .decryptAttempt, .processStarted])
                    | .error m =>
                      (true, [ack, .decryptAttempt, .processStarted, .logError m])

/-- Shallow embedding of the GET path of handleWecomAppWebhook (lines
1353-1393). -/
def handleWecomAppWebhookGet (env : AppEnv)
    (decryptEcho : AppAccount → String → Except String String)
    (targets : List AppAccount) (req : GetRequest) : Bool × List AppAction :=
  if req.timestamp = "" || req.nonce = "" || req.signature = "" || req.echostr = "" then
    (false, [])
  else
    match targets.find? (fun a => shouldHandleApp a && a.callbackToken ≠ "" &&
        a.callbackAesKey ≠ "" &&
        env.verify a.callbackToken req.timestamp req.nonce req.echostr req.signature) with
    | none => (false, [])
    | some target =>
      if target.callbackAesKey = "" then (false, [])
      else
        match decryptEcho target req.echostr with
        | .ok plain => (true, [.respond 200 plain])
        | .error m => (true, [.respond 400 (if m = "" then "decrypt failed" else m)])

/-- Claim C7.  Once an XML POST verifies against an app-capable account with
complete callback credentials, the handler's first observable action is the
literal 200 "success" response, written before the decryption attempt; and
whatever the decryption, inner parsing, or asynchronous pipeline outcome,
no further HTTP response is ever written: every later failure only logs. -/
theorem C7_xml_ack_before_decrypt (env : AppEnv) (targets : List AppAccount)
    (req : AppRequest) (raw encrypt : String) (target : AppAccount)
    (hts : req.timestamp ≠ "") (hn : req.nonce ≠ "") (hs : req.signature ≠ "")
    (hbody : req.body = .text raw) (hxml : xmlShaped raw = true)
    (hparse : env.parseXml raw = .ok encrypt) (henc : encrypt ≠ "")
    (hfind : targets.find? (fun a => shouldHandleApp a && a.callbackToken ≠ "" &&
      a.callbackAesKey ≠ "" &&
      env.verify a.callbackToken req.timestamp req.nonce encrypt req.signature) = some target)
    (htok : target.callbackToken ≠ "") (haes : target.callbackAesKey ≠ "") :
    (handleWecomAppWebhookPost env targets req).1 = true ∧
    ∃ tail, (handleWecomAppWebhookPost env targets req).2 =
        .respond 200 "success" :: .decryptAttempt :: tail ∧
      ∀ a ∈ tail, isRespond a = false := by
  rw [handleWecomAppWebhookPost]
  rw [if_neg (by simp [hts, hn, hs])]
  rw [hbody]
  simp only
  rw [if_neg (by simp [hxml])]
  rw [hparse]
  simp only
  rw [if_neg (by simp [henc])]
  rw [hfind]
  simp only
  rw [if_neg (by simp [htok, haes])]
  match env.decryptXml target encrypt with
  | .error m => exact ⟨rfl, [.logError m], rfl, by intro a ha; simp at ha; simp [ha, isRespond]⟩
  | .ok plain =>
    simp only
    match env.parseInnerXml plain with
    | .error m =>
      exact ⟨rfl, [.logError m], rfl, by intro a ha; simp at ha; simp [ha, isRespond]⟩
    | .ok _ =>
      simp only
      match env.processOutcome with
      | .ok _ =>
        exact ⟨rfl, [.processStarted], rfl, by intro a ha; simp at ha; simp [ha, isRespond]⟩
      | .error m =>
        refine ⟨rfl, [.processStarted, .logError m], rfl, ?_⟩
        intro a ha
        simp only [List.mem_cons, List.mem_singleton] at ha
        rcases ha with ha | ha | ha
        · simp [ha, isRespond]
        · simp [ha, isRespond]
        · simp at ha

/-- App environment used by concrete witnesses: outer XML "x(E)" carries
Encrypt field E, the envelope decrypts when it equals "enc", the inner XML
always parses, and the asynchronous phase fails. -/
def sampleAppEnv : AppEnv where
  verify := fun tok _ _ _ sig => tok = "ctok" && sig = "sig"
  parseXml := fun raw => if raw = "<xml>enc</xml>" then .ok "enc" else .ok ""
  decryptXml := fun _ e => if e = "enc" then .ok "<inner>" else .error "bad"
  parseInnerXml := fun _ => .ok ()
  processOutcome := .error "agent failed"

/-- Sample app account used by concrete witnesses. -/
def sampleAppAccount : AppAccount := ⟨"app", "ctok", "caes", "corp"⟩

/-- Claim C7 witness: a concrete verified XML delivery whose asynchronous
phase fails is acked with a single 200 "success" before the decrypt attempt
and the failure is only logged. -/
theorem C7_xml_ack_before_decrypt_witness :
    (handleWecomAppWebhookPost sampleAppEnv [sampleAppAccount]
      ⟨"1", "2", "sig", .text "<xml>enc</xml>"⟩).1 = true ∧
    ∃ tail, (handleWecomAppWebhookPost sampleAppEnv [sampleAppAccount]
        ⟨"1", "2", "sig", .text "<xml>enc</xml>"⟩).2 =
        .respond 200 "success" :: .decryptAttempt :: tail ∧
      ∀ a ∈ tail, isRespond a = false :=
  C7_xml_ack_before_decrypt sampleAppEnv [sampleAppAccount]
    ⟨"1", "2", "sig", .text "<xml>enc</xml>"⟩ "<xml>enc</xml>" "enc" sampleAppAccount
    (by decide) (by decide) (by decide) rfl (by decide) rfl (by decide) rfl (by decide)
    (by decide)

/-- Claim C8 counterexample: a bot POST whose query fields are all present
but whose JSON body lacks the encrypt field is not declined; it is answered
with a 400 "missing encrypt" response (handled = true), contradicting the
claim that a missing encrypt field leads to "not handled" with no response
written. -/
theorem C8_counterexample :
    (handleWecomBotWebhookPost sampleEnv [sampleAccount] ⟨"1", "2", "sig", .parsed ""⟩
      ⟨[], [], []⟩ 0 "x" []).handled = true ∧
    (handleWecomBotWebhookPost sampleEnv [sampleAccount] ⟨"1", "2", "sig", .parsed ""⟩
      ⟨[], [], []⟩ 0 "x" []).response = some (.plain 400 "missing encrypt") := by decide

/-- Claim C8 (corrected).  A webhook request missing a required query field
(timestamp, nonce, signature, or echostr on GET) is declined by both the
bot and the app handler: they return false without writing a response.  A
POST body missing the encrypt field, however, is answered with a 400 error
response (bot: "missing encrypt", app: "Missing Encrypt") rather than
declined. -/
theorem C8_missing_fields (envB : BotEnv) (envA : AppEnv)
    (decryptEchoB : WecomAccount → String → Except String String)
    (decryptEchoA : AppAccount → String → Except String String)
    (targetsB : List WecomAccount) (targetsA : List AppAccount)
    (greq : GetRequest) (req : PostRequest) (areq : AppRequest) (st0 : BotState)
    (now : Nat) (freshId : String) (waitEvents : List PipelineEvent) :
    (greq.timestamp = "" ∨ greq.nonce = "" ∨ greq.signature = "" ∨ greq.echostr = "" →
      handleWecomBotWebhookGet envB decryptEchoB targetsB greq st0 now
        = botNotHandled (pruneStreams st0 now)) ∧
    (req.timestamp = "" ∨ req.nonce = "" ∨ req.signature = "" →
      handleWecomBotWebhookPost envB targetsB req st0 now freshId waitEvents
        = botNotHandled (pruneStreams st0 now)) ∧
    (areq.timestamp = "" ∨ areq.nonce = "" ∨ areq.signature = "" →
      handleWecomAppWebhookPost envA targetsA areq = (false, [])) ∧
    (greq.timestamp = "" ∨ greq.nonce = "" ∨ greq.signature = "" ∨ greq.echostr = "" →
      handleWecomAppWebhookGet envA decryptEchoA targetsA greq = (false, [])) ∧
    (req.timestamp ≠ "" → req.nonce ≠ "" → req.signature ≠ "" → req.body = .parsed "" →
      targetsB.filter shouldHandleBot ≠ [] →
      handleWecomBotWebhookPost envB targetsB req st0 now freshId waitEvents =
        ⟨pruneStreams st0 now, true, some (.plain 400 "missing encrypt"), false, false,
          none⟩) ∧
    (∀ raw, areq.timestamp ≠ "" → areq.nonce ≠ "" → areq.signature ≠ "" →
      areq.body = .text raw → xmlShaped raw = true → envA.parseXml raw = .ok "" →
      handleWecomAppWebhookPost envA targetsA areq
        = (true, [.respond 400 "Missing Encrypt"])) := by
  refine ⟨?_, ?_, ?_, ?_, ?_, ?_⟩
  · intro hmiss
    rw [handleWecomBotWebhookGet]
    by_cases hempty : (targetsB.filter shouldHandleBot).isEmpty
    · rw [if_pos hempty]
    · rw [if_neg hempty]
      rw [if_pos (by rcases hmiss with h | h | h | h <;> simp [h])]
  · intro hmiss
    rw [handleWecomBotWebhookPost]
    by_cases hempty : (targetsB.filter shouldHandleBot).isEmpty
    · rw [if_pos hempty]
    · rw [if_neg hempty]
      rw [if_pos (by rcases hmiss with h | h | h <;> simp [h])]
  · intro hmiss
    rw [handleWecomAppWebhookPost]
    rw [if_pos (by rcases hmiss with h | h | h <;> simp [h])]
  · intro hmiss
    rw [handleWecomAppWebhookGet]
    rw [if_pos (by rcases hmiss with h | h | h | h <;> simp [h])]
  · intro hts hn hs hbody hne
    rw [handleWecomBotWebhookPost]
    rw [if_neg (by simp [List.isEmpty_iff, hne])]
    rw [if_neg (by simp [hts, hn, hs])]
    rw [hbody]
    simp only [if_true]
  · intro raw hts hn hs hbody hxml hparse
    rw [handleWecomAppWebhookPost]
    rw [if_neg (by simp [hts, hn, hs])]
    rw [hbody]
    simp only
    rw [if_neg (by simp [hxml])]
    rw [hparse]
    simp only [if_true]

/-- Claim C8 witness: a GET missing its signature is declined by the bot
handler without writing, and an app POST with an XML body lacking Encrypt
is answered 400. -/
theorem C8_missing_fields_witness :
    handleWecomBotWebhookGet sampleEnv (fun _ e => .ok e) [sampleAccount]
      ⟨"1", "2", "", "echo"⟩ ⟨[], [], []⟩ 0 = botNotHandled (pruneStreams ⟨[], [], []⟩ 0) ∧
    handleWecomAppWebhookPost sampleAppEnv [sampleAppAccount]
      ⟨"1", "2", "sig", .text "<xml>other</xml>"⟩
      = (true, [.respond 400 "Missing Encrypt"]) := by
  constructor
  · exact (C8_missing_fields sampleEnv sampleAppEnv (fun _ e => .ok e) (fun _ e => .ok e)
      [sampleAccount] [sampleAppAccount] ⟨"1", "2", "", "echo"⟩ ⟨"1", "2", "sig", .parsed ""⟩
      ⟨"1", "2", "sig", .text "<xml>other</xml>"⟩ ⟨[], [], []⟩ 0 "x" []).1
      (Or.inr (Or.inr (Or.inl rfl)))
  · exact (C8_missing_fields sampleEnv sampleAppEnv (fun _ e => .ok e) (fun _ e => .ok e)
      [sampleAccount] [sampleAppAccount] ⟨"1", "2", "", "echo"⟩ ⟨"1", "2", "sig", .parsed ""⟩
      ⟨"1", "2", "sig", .text "<xml>other</xml>"⟩ ⟨[], [], []⟩ 0 "x" []).2.2.2.2.2
      "<xml>other</xml>" (by decide) (by decide) (by decide) rfl (by decide) rfl


end Wecom
